import Mathlib

/-!
# rdjson-viewer: the URL pipeline of `cmd/rdjson-viewer/main.go`

A shallow embedding of the command: `compressData`, `buildViewerURL` and
`main`, together with the parts of the Go standard library they call
(`strings`, `net/url`, `encoding/base64`, `hash/adler32`, `compress/zlib`,
`flag`). The match finder and Huffman coder of `compress/flate` are a
parameter (`FlateCoder`); the stream around their blocks is modelled.

Go strings and byte slices are sequences of bytes, so both are lists of
`Fin 256`; Go errors are carried as their message text. The statements on
what a reader gets back use a base64 decoder, a zlib and DEFLATE inflater
(RFC 1950, RFC 1951) and the query parser of `net/url`.
-/

namespace RdjsonViewer

/-! ## Bytes and strings -/

/-- A Go `byte`. -/
abbrev Byte := Fin 256

/-- A Go `string` (and `[]byte`): an arbitrary sequence of bytes. -/
abbrev GoString := List Byte

/-- The byte of an ASCII character. -/
def ascii (c : Char) : Byte := ⟨c.toNat % 256, Nat.mod_lt _ (by decide)⟩

/-- The Go string of an ASCII string literal. -/
def str (s : String) : GoString := s.toList.map ascii

/-! ## Package `strings` -/

/-- Go `strings.Cut(s, sep)` for a one-byte separator: the text before and
after the first `sep`, and whether `sep` was found. -/
def stringsCut (sep : Byte) : GoString → GoString × GoString × Bool
  | [] => ([], [], false)
  | c :: cs =>
    if c = sep then ([], cs, true)
    else
      let r := stringsCut sep cs
      (c :: r.1, r.2.1, r.2.2)

/-- Go `strings.Replace(s, old, new, -1)` for a one-byte `old`: every
occurrence of the byte is replaced. -/
def stringsReplaceAll (s : GoString) (old : Byte) (new : GoString) : GoString :=
  s.flatMap fun c => if c = old then new else [c]

/-- Go `strings.HasPrefix`. -/
def stringsHasPrefix : GoString → GoString → Bool
  | _, [] => true
  | [], _ :: _ => false
  | c :: cs, p :: ps => c = p && stringsHasPrefix cs ps

/-- Go `strings.LastIndex(s, sep) >= 0` for a one-byte separator, with the
text before and after the last occurrence. -/
def stringsCutLast (sep : Byte) (s : GoString) : Option (GoString × GoString) :=
  let r := stringsCut sep s.reverse
  if r.2.2 then some (r.2.1.reverse, r.1.reverse) else none

/-- Byte-wise lexicographic `<` on Go strings (the order of `slices.Sort`
on `[]string`). -/
def strLt : GoString → GoString → Bool
  | [], [] => false
  | [], _ :: _ => true
  | _ :: _, [] => false
  | a :: as, b :: bs => if a < b then true else if b < a then false else strLt as bs

/-- Insertion of a key into an ascending list of keys. -/
def insertKey (k : GoString) : List GoString → List GoString
  | [] => [k]
  | x :: xs => if strLt x k then x :: insertKey k xs else k :: x :: xs

/-- Go `slices.Sort(keys)`: the keys in ascending byte order. -/
def sortKeys (ks : List GoString) : List GoString := ks.foldr insertKey []

/-! ## Package `net/url` -/

/-- The escaping modes of `net/url` (`encoding`). -/
inductive Encoding
  | encodePath | encodePathSegment | encodeHost | encodeZone
  | encodeUserPassword | encodeQueryComponent | encodeFragment
  deriving DecidableEq, Repr

open Encoding

/-- ASCII letters and digits. -/
def isAlnum (c : Byte) : Bool :=
  (ascii 'a' ≤ c && c ≤ ascii 'z') || (ascii 'A' ≤ c && c ≤ ascii 'Z') ||
  (ascii '0' ≤ c && c ≤ ascii '9')

/-- Go `url.shouldEscape(c, mode)`. -/
def shouldEscape (c : Byte) (mode : Encoding) : Bool :=
  if isAlnum c then false
  else if (mode = encodeHost || mode = encodeZone) && c ∈ str "!$&\x27()*+,;=:[]<>\"" then false
  else if c ∈ str "-_.~" then false
  else if c ∈ str "$&+,/:;=?@" &&
      (mode = encodePath || mode = encodePathSegment || mode = encodeUserPassword ||
        mode = encodeQueryComponent || mode = encodeFragment) then
    match mode with
    | encodePath => c = ascii '?'
    | encodePathSegment => c = ascii '/' || c = ascii ';' || c = ascii ',' || c = ascii '?'
    | encodeUserPassword => c = ascii '@' || c = ascii '/' || c = ascii '?' || c = ascii ':'
    | encodeQueryComponent => true
    | _ => false
  else if mode = encodeFragment && c ∈ str "!()*" then false
  else true

/-- The digits of `upperhex`. -/
def upperhex : GoString := str "0123456789ABCDEF"

/-- The byte `upperhex[n]`. -/
def hexDigit (n : Nat) : Byte := upperhex.getD n 0

/-- Go `url.ishex`. -/
def ishex (c : Byte) : Bool :=
  (ascii '0' ≤ c && c ≤ ascii '9') || (ascii 'a' ≤ c && c ≤ ascii 'f') ||
  (ascii 'A' ≤ c && c ≤ ascii 'F')

/-- Go `url.unhex`. -/
def unhex (c : Byte) : Byte :=
  if ascii '0' ≤ c ∧ c ≤ ascii '9' then c - ascii '0'
  else if ascii 'a' ≤ c ∧ c ≤ ascii 'f' then c - ascii 'a' + 10
  else if ascii 'A' ≤ c ∧ c ≤ ascii 'F' then c - ascii 'A' + 10
  else 0

/-- What `url.escape` writes for one byte: a space becomes `+` in a query
component, a byte that must be escaped becomes `%XX`, any other is kept. -/
def escapeByte (mode : Encoding) (c : Byte) : GoString :=
  if c = ascii ' ' ∧ mode = encodeQueryComponent then [ascii '+']
  else if shouldEscape c mode then [ascii '%', hexDigit (c.val / 16), hexDigit (c.val % 16)]
  else [c]

/-- Go `url.escape(s, mode)`. -/
def escape (s : GoString) (mode : Encoding) : GoString := s.flatMap (escapeByte mode)

/-- Go `url.QueryEscape`. -/
def QueryEscape (s : GoString) : GoString := escape s encodeQueryComponent

/-- The first pass of `url.unescape`: every `%` is followed by two hex digits
(and, in a host, escapes only what a host may escape); `none` when the text
is well formed, else the error. -/
def unescapeCheck (mode : Encoding) : GoString → Option GoString
  | [] => none
  | c :: cs =>
    if c = ascii '%' then
      match cs with
      | h1 :: h2 :: rest =>
        if !ishex h1 || !ishex h2 then some (str "invalid URL escape")
        else if mode = encodeHost && decide ((unhex h1).val < 8) && [c, h1, h2] ≠ str "%25" then
          some (str "invalid URL escape")
        else if mode = encodeZone && [c, h1, h2] ≠ str "%25" &&
            unhex h1 * 16 + unhex h2 ≠ ascii ' ' &&
            shouldEscape (unhex h1 * 16 + unhex h2) encodeHost then
          some (str "invalid URL escape")
        else unescapeCheck mode rest
      | _ => some (str "invalid URL escape")
    else if c = ascii '+' then unescapeCheck mode cs
    else if (mode = encodeHost || mode = encodeZone) && decide (c.val < 128) &&
        shouldEscape c encodeHost then
      some (str "invalid character in host name")
    else unescapeCheck mode cs

/-- The second pass of `url.unescape`: `%XX` becomes the byte, `+` becomes a
space in a query component. -/
def unescapeBytes (mode : Encoding) : GoString → GoString
  | [] => []
  | c :: cs =>
    if c = ascii '%' then
      match cs with
      | h1 :: h2 :: rest => (unhex h1 * 16 + unhex h2) :: unescapeBytes mode rest
      | _ => []
    else if c = ascii '+' then
      (if mode = encodeQueryComponent then ascii ' ' else ascii '+') :: unescapeBytes mode cs
    else c :: unescapeBytes mode cs

/-- Go `url.unescape(s, mode)`. -/
def unescape (s : GoString) (mode : Encoding) : Except GoString GoString :=
  match unescapeCheck mode s with
  | some e => .error e
  | none => .ok (unescapeBytes mode s)

/-- Go `url.QueryUnescape`. -/
def QueryUnescape (s : GoString) : Except GoString GoString := unescape s encodeQueryComponent

/-- Go `url.Values`, a `map[string][]string`: an association list with
distinct keys. -/
abbrev Values := List (GoString × List GoString)

/-- The map lookup `v[key]` (the empty slice when the key is absent). -/
def Values.lookup (v : Values) (key : GoString) : List GoString :=
  match v.find? (fun e => e.1 = key) with
  | some e => e.2
  | none => []

/-- The map assignment `v[key] = vs`. -/
def Values.assign (v : Values) (key : GoString) (vs : List GoString) : Values :=
  if v.any (fun e => e.1 = key) then v.map (fun e => if e.1 = key then (key, vs) else e)
  else v ++ [(key, vs)]

/-- Go `Values.Set`: `v[key] = []string{value}`. -/
def Values.Set (v : Values) (key value : GoString) : Values := v.assign key [value]

/-- Go `Values.Encode`: `key=value` pairs joined by `&`, keys in ascending
order, keys and values query-escaped. -/
def Values.Encode (v : Values) : GoString :=
  if v.isEmpty then []
  else
    (sortKeys (v.map (fun e => e.1))).foldl
      (fun buf k =>
        let keyEscaped := QueryEscape k
        (v.lookup k).foldl
          (fun buf val =>
            (if buf.isEmpty then buf else buf ++ [ascii '&']) ++ keyEscaped ++ [ascii '='] ++
              QueryEscape val)
          buf)
      []

/-- One round of the loop of `url.parseQuery` on the piece `key` of the
query: the map and the first error so far. -/
def parseQueryPiece (acc : Values × Option GoString) (piece : GoString) :
    Values × Option GoString :=
  if ascii ';' ∈ piece then (acc.1, some (str "invalid semicolon separator in query"))
  else if piece = [] then acc
  else
    let kv := stringsCut (ascii '=') piece
    match QueryUnescape kv.1 with
    | .error e => (acc.1, acc.2.orElse fun _ => some e)
    | .ok key =>
      match QueryUnescape kv.2.1 with
      | .error e => (acc.1, acc.2.orElse fun _ => some e)
      | .ok value => (acc.1.assign key (acc.1.lookup key ++ [value]), acc.2)

/-- The pieces of a text between the occurrences of a separator byte (what
cutting at the first separator again and again yields). -/
def splitBy (sep : Byte) : GoString → List GoString
  | [] => [[]]
  | c :: cs =>
    if c = sep then [] :: splitBy sep cs
    else
      match splitBy sep cs with
      | [] => [[c]]
      | h :: t => (c :: h) :: t

/-- Go `url.ParseQuery`: the map of the `&`-separated `key=value` settings
of a query and the first error met. -/
def ParseQuery (query : GoString) : Values × Option GoString :=
  if query = [] then ([], none)
  else (splitBy (ascii '&') query).foldl parseQueryPiece ([], none)

/-- Go `url.URL`. The command never builds a URL with user information, so
the `User` field is left out. -/
structure URL where
  Scheme : GoString := []
  Opaque : GoString := []
  Host : GoString := []
  Path : GoString := []
  RawPath : GoString := []
  OmitHost : Bool := false
  ForceQuery : Bool := false
  RawQuery : GoString := []
  Fragment : GoString := []
  RawFragment : GoString := []
  deriving DecidableEq, Repr

/-- Go `url.stringContainsCTLByte`. -/
def stringContainsCTLByte (s : GoString) : Bool :=
  s.any fun b => decide (b < ascii ' ') || b = 0x7f

/-- Go `url.getScheme`: the scheme and the rest of the text. -/
def getSchemeAux (rawURL : GoString) : Nat → GoString → Except GoString (GoString × GoString)
  | _, [] => .ok ([], rawURL)
  | i, c :: cs =>
    if (ascii 'a' ≤ c && c ≤ ascii 'z') || (ascii 'A' ≤ c && c ≤ ascii 'Z') then
      getSchemeAux rawURL (i + 1) cs
    else if (ascii '0' ≤ c && c ≤ ascii '9') || c = ascii '+' || c = ascii '-' || c = ascii '.' then
      if i = 0 then .ok ([], rawURL) else getSchemeAux rawURL (i + 1) cs
    else if c = ascii ':' then
      if i = 0 then .error (str "missing protocol scheme") else .ok (rawURL.take i, cs)
    else .ok ([], rawURL)

/-- Go `url.getScheme`. -/
def getScheme (rawURL : GoString) : Except GoString (GoString × GoString) :=
  getSchemeAux rawURL 0 rawURL

/-- Go `strings.ToLower` on ASCII text. -/
def toLower (s : GoString) : GoString :=
  s.map fun c => if ascii 'A' ≤ c ∧ c ≤ ascii 'Z' then c + 32 else c

/-- Go `url.validOptionalPort`. -/
def validOptionalPort (port : GoString) : Bool :=
  match port with
  | [] => true
  | c :: ds => c = ascii ':' && ds.all fun b => decide (ascii '0' ≤ b) && decide (b ≤ ascii '9')

/-- Go `url.parseHost` for a host that is not a bracketed IP literal (a
literal is reported as an error of the model). -/
def parseHost (host : GoString) : Except GoString GoString :=
  if stringsHasPrefix host (str "[") then .error (str "IP literal hosts are not modelled")
  else
    let portOk :=
      match stringsCutLast (ascii ':') host with
      | some (_, port) => validOptionalPort (ascii ':' :: port)
      | none => true
    if !portOk then .error (str "invalid port after host")
    else unescape host encodeHost

/-- Go `url.parseAuthority` for an authority without user information (an
`@` is reported as an error of the model). -/
def parseAuthority (authority : GoString) : Except GoString GoString :=
  if ascii '@' ∈ authority then .error (str "user information is not modelled")
  else parseHost authority

/-- Go `(*URL).setPath`. -/
def URL.setPath (u : URL) (p : GoString) : Except GoString URL :=
  match unescape p encodePath with
  | .error e => .error e
  | .ok path =>
    .ok { u with Path := path, RawPath := if p = escape path encodePath then [] else p }

/-- Go `(*URL).setFragment`. -/
def URL.setFragment (u : URL) (f : GoString) : Except GoString URL :=
  match unescape f encodeFragment with
  | .error e => .error e
  | .ok frag =>
    .ok { u with Fragment := frag,
                 RawFragment := if f = escape frag encodeFragment then [] else f }

/-- Go `url.parse(rawURL, false)`. -/
def parseNoFragment (rawURL : GoString) : Except GoString URL :=
  if stringContainsCTLByte rawURL then .error (str "net/url: invalid control character in URL")
  else if rawURL = str "*" then .ok { Path := str "*" }
  else
    match getScheme rawURL with
    | .error e => .error e
    | .ok (scheme, rest) =>
      let url : URL := { Scheme := toLower scheme }
      let cutq := stringsCut (ascii '?') rest
      let forceQuery : Bool := cutq.2.2 && cutq.2.1 = []
      let url := if forceQuery then { url with ForceQuery := true }
                 else { url with RawQuery := cutq.2.1 }
      let rest := cutq.1
      if !stringsHasPrefix rest (str "/") && url.Scheme ≠ [] then
        .ok { url with Opaque := rest }
      else if !stringsHasPrefix rest (str "/") &&
          ascii ':' ∈ (stringsCut (ascii '/') rest).1 then
        .error (str "first path segment in URL cannot contain colon")
      else if (url.Scheme ≠ [] || !stringsHasPrefix rest (str "///")) &&
          stringsHasPrefix rest (str "//") then
        let cuta := stringsCut (ascii '/') (rest.drop 2)
        let authority := cuta.1
        let rest := if cuta.2.2 then ascii '/' :: cuta.2.1 else []
        match parseAuthority authority with
        | .error e => .error e
        | .ok host => URL.setPath { url with Host := host } rest
      else if url.Scheme ≠ [] && stringsHasPrefix rest (str "/") then
        URL.setPath { url with OmitHost := true } rest
      else URL.setPath url rest

/-- Go `url.Parse`. -/
def Parse (rawURL : GoString) : Except GoString URL :=
  let cut := stringsCut (ascii '#') rawURL
  match parseNoFragment cut.1 with
  | .error e => .error (str "parse: " ++ e)
  | .ok url =>
    if cut.2.1 = [] then .ok url
    else
      match url.setFragment cut.2.1 with
      | .error e => .error (str "parse: " ++ e)
      | .ok url => .ok url

/-- Go `url.validEncoded`. -/
def validEncoded (s : GoString) (mode : Encoding) : Bool :=
  s.all fun c => c ∈ str "!$&\x27()*+,;=:@[]%" || !shouldEscape c mode

/-- Go `(*URL).EscapedPath`. -/
def URL.EscapedPath (u : URL) : GoString :=
  if u.RawPath ≠ [] && validEncoded u.RawPath encodePath &&
      (match unescape u.RawPath encodePath with
       | .ok p => decide (p = u.Path)
       | .error _ => false) then u.RawPath
  else if u.Path = str "*" then str "*"
  else escape u.Path encodePath

/-- Go `(*URL).EscapedFragment`. -/
def URL.EscapedFragment (u : URL) : GoString :=
  if u.RawFragment ≠ [] && validEncoded u.RawFragment encodeFragment &&
      (match unescape u.RawFragment encodeFragment with
       | .ok f => decide (f = u.Fragment)
       | .error _ => false) then u.RawFragment
  else escape u.Fragment encodeFragment

/-- Go `(*URL).String` (for a URL without user information). -/
def URL.String (u : URL) : GoString :=
  let buf : GoString := if u.Scheme ≠ [] then u.Scheme ++ [ascii ':'] else []
  let buf :=
    if u.Opaque ≠ [] then buf ++ u.Opaque
    else
      let buf :=
        if u.Scheme ≠ [] || u.Host ≠ [] then
          if u.OmitHost && u.Host = [] then buf
          else
            let buf := if u.Host ≠ [] || u.Path ≠ [] then buf ++ str "//" else buf
            if u.Host ≠ [] then buf ++ escape u.Host encodeHost else buf
        else buf
      let path := u.EscapedPath
      let buf :=
        if path ≠ [] && path.head? ≠ some (ascii '/') && u.Host ≠ [] then buf ++ [ascii '/']
        else buf
      let buf :=
        if buf.isEmpty && ascii ':' ∈ (stringsCut (ascii '/') path).1 then buf ++ str "./"
        else buf
      buf ++ path
  let buf := if u.ForceQuery || u.RawQuery ≠ [] then buf ++ [ascii '?'] ++ u.RawQuery else buf
  if u.Fragment ≠ [] then buf ++ [ascii '#'] ++ u.EscapedFragment else buf

/-- Go `(*URL).Query`: the parsed `RawQuery`, any error dropped. -/
def URL.Query (u : URL) : Values := (ParseQuery u.RawQuery).1

/-! ## `cmd/rdjson-viewer/main.go` -/

/-- The constant `viewerBaseURL`. -/
def viewerBaseURL : GoString := str "https://reviewdog.github.io/rdjson-viewer"

/-- The function `buildViewerURL(compressedData, format, baseHTMLURL)`. -/
def buildViewerURL (compressedData format baseHTMLURL : GoString) : Except GoString GoString :=
  match Parse viewerBaseURL with
  | .error err => .error err
  | .ok u =>
    let q := u.Query
    let q := q.Set format compressedData
    let q := if baseHTMLURL ≠ [] then q.Set (str "base_path_url") baseHTMLURL else q
    let u := { u with RawQuery := q.Encode }
    -- Replace any '+' with '%20' for better URL compatibility
    .ok (stringsReplaceAll u.String (ascii '+') (str "%20"))


deriving instance DecidableEq for Except


/-! ## Package `encoding/base64` -/

/-- The byte with the given value (a conversion to `byte`). -/
def toByte (n : Nat) : Byte := ⟨n % 256, Nat.mod_lt _ (by decide)⟩

/-- The alphabet of `base64.StdEncoding`. -/
def encodeStd : GoString :=
  str "ABCDEFGHIJKLMNOPQRSTUVWXYZabcdefghijklmnopqrstuvwxyz0123456789+/"

/-- The byte `enc.encode[n]`. -/
def encodeChar (n : Nat) : Byte := encodeStd.getD n 0

/-- Go `base64.StdEncoding.EncodeToString`: three bytes become four
characters, a rest of one or two bytes is padded with `=`. -/
def EncodeToString : List Byte → GoString
  | [] => []
  | [a] =>
    let val := a.val * 65536
    [encodeChar (val / 262144 % 64), encodeChar (val / 4096 % 64), ascii '=', ascii '=']
  | [a, b] =>
    let val := a.val * 65536 + b.val * 256
    [encodeChar (val / 262144 % 64), encodeChar (val / 4096 % 64),
      encodeChar (val / 64 % 64), ascii '=']
  | a :: b :: c :: rest =>
    let val := a.val * 65536 + b.val * 256 + c.val
    encodeChar (val / 262144 % 64) :: encodeChar (val / 4096 % 64) ::
      encodeChar (val / 64 % 64) :: encodeChar (val % 64) :: EncodeToString rest

/-! ## Package `hash/adler32` -/

/-- The modulus of Adler-32, the largest prime below 65536. -/
def adlerMod : Nat := 65521

/-- One byte of the loop of `adler32.update`: `s1 += x; s2 += s1`, reduced. -/
def adlerStep (s : Nat × Nat) (x : Byte) : Nat × Nat :=
  ((s.1 + x.val) % adlerMod, (s.2 + (s.1 + x.val) % adlerMod) % adlerMod)

/-- Go `adler32.update`: the digest `s2<<16 | s1` after the bytes `p`. The
sums are reduced after every byte; Go reduces them every 5552 bytes, before
they can overflow 32 bits, which gives the same digest. -/
def adlerUpdate (d : Nat) (p : List Byte) : Nat :=
  let s := p.foldl adlerStep (d % 65536, d / 65536)
  s.2 * 65536 + s.1

/-- Go `adler32.Checksum`: the digest starts at 1. -/
def adlerChecksum (p : List Byte) : Nat := adlerUpdate 1 p

/-! ## Package `compress/flate` and `compress/zlib`, writing -/

/-- The value of a little-endian bit sequence. -/
def bitsToNat : List Bool → Nat
  | [] => 0
  | b :: bs => b.toNat + 2 * bitsToNat bs

/-- The bit writer of `compress/flate`: bits fill each byte from its least
significant bit, the last byte is filled up with zero bits. -/
def packBits : List Bool → List Byte
  | [] => []
  | b0 :: b1 :: b2 :: b3 :: b4 :: b5 :: b6 :: b7 :: rest =>
    toByte (bitsToNat [b0, b1, b2, b3, b4, b5, b6, b7]) :: packBits rest
  | bs => [toByte (bitsToNat bs)]

/-- The block coder of `compress/flate` (its match finder and Huffman
coder), which is not part of this repository: for a compression level and
the data written, the bits the compressor writes before it closes the
stream, the blocks that carry the data. Nothing is assumed of them. -/
structure FlateCoder where
  blocks : Int → List Byte → List Bool

/-- Go `flate.Writer`: the level and the data handed to it so far. -/
structure FlateWriter where
  level : Int
  data : List Byte
  deriving DecidableEq, Repr

/-- Go `(*flate.Writer).Close`: the compressor writes the blocks of the data
it holds (none when no data was written), then ends the stream with an
empty block of the fixed Huffman code (`writeStoredHeader(0, true)`: the
final-block flag and the type bits `1, 1, 0`, then the end-of-block symbol,
seven zero bits), and flushes, which fills the last byte with zero bits.
For no data the stream is the two bytes `03 00`. The result is the whole
DEFLATE stream. -/
def FlateWriter.Close (c : FlateCoder) (fw : FlateWriter) : List Byte :=
  let body := if fw.data = [] then [] else c.blocks fw.level fw.data
  packBits (body ++ [true, true, false] ++ List.replicate 7 false)

/-- The constants `zlib.HuffmanOnly`, `zlib.DefaultCompression` and
`zlib.BestCompression`. -/
def HuffmanOnly : Int := -2

/-- The constant `zlib.DefaultCompression`. -/
def DefaultCompression : Int := -1

/-- The constant `zlib.BestCompression`. -/
def BestCompression : Int := 9

/-- Go `zlib.Writer` over a `bytes.Buffer`: the buffer `w`, the compressor
and the Adler-32 digest of the data written. -/
structure Writer where
  w : List Byte
  level : Int
  wroteHeader : Bool
  compressor : FlateWriter
  digest : Nat
  deriving DecidableEq, Repr

/-- Go `zlib.NewWriterLevel(w, level)`. -/
def NewWriterLevel (w : List Byte) (level : Int) : Except GoString Writer :=
  if level < HuffmanOnly ∨ level > BestCompression then
    .error (str "zlib: invalid compression level")
  else
    .ok { w := w, level := level, wroteHeader := false,
          compressor := { level := level, data := [] }, digest := 1 }

/-- Go `(*zlib.Writer).writeHeader`: the two header bytes of RFC 1950 (method
and window size `0x78`, then the level bits with the checksum that makes
the pair a multiple of 31), written to the buffer. -/
def Writer.writeHeader (z : Writer) : Writer :=
  let b0 : Nat := 0x78
  let flevel : Nat :=
    if z.level = -2 ∨ z.level = 0 ∨ z.level = 1 then 0
    else if z.level = 2 ∨ z.level = 3 ∨ z.level = 4 ∨ z.level = 5 then 1
    else if z.level = 6 ∨ z.level = -1 then 2
    else 3
  let b1 := flevel * 64
  let b1 := b1 + (31 - (b0 * 256 + b1) % 31)
  { z with wroteHeader := true, w := z.w ++ [toByte b0, toByte b1] }

/-- Go `(*zlib.Writer).Write(p)`: the header is written first if it was not
yet, then the data goes to the compressor and to the digest. Writing to a
`bytes.Buffer` reports no error. -/
def Writer.Write (z : Writer) (p : List Byte) : Except GoString Writer :=
  let z := if !z.wroteHeader then z.writeHeader else z
  if p = [] then .ok z
  else
    .ok { z with compressor := { z.compressor with data := z.compressor.data ++ p },
                 digest := adlerUpdate z.digest p }

/-- Go `(*zlib.Writer).Close`: the header if it was not yet written, the
closed DEFLATE stream, then the Adler-32 checksum of the data, big-endian. -/
def Writer.Close (c : FlateCoder) (z : Writer) : Except GoString Writer :=
  let z := if !z.wroteHeader then z.writeHeader else z
  let z := { z with w := z.w ++ z.compressor.Close c }
  let checksum := z.digest
  .ok { z with w := z.w ++ [toByte (checksum / 16777216), toByte (checksum / 65536),
                            toByte (checksum / 256), toByte checksum] }

/-- The function `compressData(data)`, over the block coder of the
standard library. -/
def compressData (c : FlateCoder) (data : List Byte) : Except GoString GoString :=
  match NewWriterLevel [] DefaultCompression with
  | .error err => .error err
  | .ok zw =>
    match zw.Write data with
    | .error err => .error err
    | .ok zw =>
      match zw.Close c with
      | .error err => .error err
      | .ok zw =>
        let compressed := zw.w
        let encoded := EncodeToString compressed
        .ok encoded


/-! ## Package `flag` -/

/-- The three flag variables of `main`. -/
structure Flags where
  inputFile : GoString
  format : GoString
  baseHTMLURL : GoString
  deriving DecidableEq, Repr

/-- The default values given to `flag.StringVar`. -/
def defaultFlags : Flags := { inputFile := [], format := str "rdjson", baseHTMLURL := [] }

/-- The flags `main` defines: the setter of a defined name. -/
def lookupFlag (name : GoString) : Option (Flags → GoString → Flags) :=
  if name = str "file" then some fun fl v => { fl with inputFile := v }
  else if name = str "format" then some fun fl v => { fl with format := v }
  else if name = str "base-url" then some fun fl v => { fl with baseHTMLURL := v }
  else none

/-- What `flag.Parse` ends with: the flags set, a request for help, or a
failure with its message. -/
inductive FlagResult
  | parsed (fl : Flags)
  | help
  | fail (msg : GoString)
  deriving DecidableEq, Repr

/-- Go `(*FlagSet).Parse` on the command-line arguments: `parseOne` again
and again until the arguments end, a non-flag argument or `--` is met, or
an argument is in error. Each of the three flags takes a value, after `=`
or as the next argument. -/
def flagParse : Flags → List GoString → FlagResult
  | fl, [] => .parsed fl
  | fl, s :: rest =>
    if s.length < 2 || s.head? ≠ some (ascii '-') then .parsed fl
    else
      let numMinuses := if s.tail.head? = some (ascii '-') then 2 else 1
      if numMinuses = 2 && s.length = 2 then .parsed fl
      else
        let name := s.drop numMinuses
        if name = [] || name.head? = some (ascii '-') || name.head? = some (ascii '=') then
          .fail (str "bad flag syntax: " ++ s)
        else
          let cut := stringsCut (ascii '=') name.tail
          let name := (name.take 1) ++ cut.1
          let value := cut.2.1
          let hasValue := cut.2.2
          match lookupFlag name with
          | none =>
            if name = str "help" || name = str "h" then .help
            else .fail (str "flag provided but not defined: -" ++ name)
          | some set =>
            if hasValue then flagParse (set fl value) rest
            else
              match rest with
              | [] => .fail (str "flag needs an argument: -" ++ name)
              | value :: rest => flagParse (set fl value) rest

/-! ## `main` -/

/-- What a run can read: the files (`os.ReadFile`) and the standard input
(`io.ReadAll(os.Stdin)`), each the bytes or the error; and the usage text
the `flag` package prints. -/
structure Env where
  readFile : GoString → Except GoString (List Byte)
  stdin : Except GoString (List Byte)
  usage : GoString

/-- An input a run has read. -/
inductive Read
  | file (path : GoString)
  | stdin
  deriving DecidableEq, Repr

/-- What a run leaves: the exit code, the two streams and the inputs read. -/
structure Outcome where
  exitCode : Nat
  stdout : GoString
  stderr : GoString
  reads : List Read
  deriving DecidableEq, Repr

/-- The body of `main` after `flag.Parse()`, lines 27 to 58. -/
def mainBody (c : FlateCoder) (env : Env) (fl : Flags) : Outcome :=
  if fl.format ≠ str "rdjson" ∧ fl.format ≠ str "rdjsonl" then
    { exitCode := 1, stdout := [],
      stderr := str "Error: format must be either \x27rdjson\x27 or \x27rdjsonl\x27" ++ str "\n",
      reads := [] }
  else
    let input := if fl.inputFile ≠ [] then env.readFile fl.inputFile else env.stdin
    let reads := [if fl.inputFile ≠ [] then Read.file fl.inputFile else Read.stdin]
    match input with
    | .error err =>
      { exitCode := 1, stdout := [],
        stderr := str "Error reading input: " ++ err ++ str "\n", reads := reads }
    | .ok input =>
      match compressData c input with
      | .error err =>
        { exitCode := 1, stdout := [],
          stderr := str "Error compressing data: " ++ err ++ str "\n", reads := reads }
      | .ok compressedData =>
        match buildViewerURL compressedData fl.format fl.baseHTMLURL with
        | .error err =>
          { exitCode := 1, stdout := [],
            stderr := str "Error building viewer URL: " ++ err ++ str "\n", reads := reads }
        | .ok viewerURL =>
          { exitCode := 0, stdout := viewerURL ++ str "\n", stderr := [], reads := reads }

/-- The function `main` on the command-line arguments `os.Args[1:]`. When
`flag.Parse` fails it prints the message and the usage and exits with
code 2; on `-h` or `-help` it prints the usage and exits with code 0. -/
def main (c : FlateCoder) (env : Env) (args : List GoString) : Outcome :=
  match flagParse defaultFlags args with
  | .fail msg =>
    { exitCode := 2, stdout := [], stderr := msg ++ str "\n" ++ env.usage, reads := [] }
  | .help => { exitCode := 0, stdout := [], stderr := env.usage, reads := [] }
  | .parsed fl => mainBody c env fl


/-! ## Reading back: base64 decoding (RFC 4648) -/

/-- The value of a character of the standard alphabet. -/
def decodeChar (c : Byte) : Option Nat :=
  if ascii 'A' ≤ c ∧ c ≤ ascii 'Z' then some (c.val - 65)
  else if ascii 'a' ≤ c ∧ c ≤ ascii 'z' then some (c.val - 97 + 26)
  else if ascii '0' ≤ c ∧ c ≤ ascii '9' then some (c.val - 48 + 52)
  else if c = ascii '+' then some 62
  else if c = ascii '/' then some 63
  else none

/-- Standard padded base64 decoding: groups of four characters, `=` only
as the last one or two characters of the last group. -/
def DecodeString : GoString → Option (List Byte)
  | [] => some []
  | c0 :: c1 :: c2 :: c3 :: rest =>
    match decodeChar c0, decodeChar c1 with
    | some v0, some v1 =>
      if c2 = ascii '=' then
        if c3 = ascii '=' ∧ rest = [] then some [toByte (v0 * 4 + v1 / 16)] else none
      else
        match decodeChar c2 with
        | none => none
        | some v2 =>
          if c3 = ascii '=' then
            if rest = [] then
              some [toByte (v0 * 4 + v1 / 16), toByte (v1 % 16 * 16 + v2 / 4)]
            else none
          else
            match decodeChar c3 with
            | none => none
            | some v3 =>
              match DecodeString rest with
              | none => none
              | some t =>
                some (toByte (v0 * 4 + v1 / 16) :: toByte (v1 % 16 * 16 + v2 / 4) ::
                  toByte (v2 % 4 * 64 + v3) :: t)
    | _, _ => none
  | _ => none

/-! ## Reading back: inflating a DEFLATE stream (RFC 1951) -/

/-- The eight bits of a byte, least significant first. -/
def bitsOfByte (b : Byte) : List Bool :=
  [b.val % 2 = 1, b.val / 2 % 2 = 1, b.val / 4 % 2 = 1, b.val / 8 % 2 = 1,
   b.val / 16 % 2 = 1, b.val / 32 % 2 = 1, b.val / 64 % 2 = 1, b.val / 128 % 2 = 1]

/-- The bits of a byte sequence, in the order a DEFLATE reader takes them. -/
def unpackBits (bs : List Byte) : List Bool := bs.flatMap bitsOfByte

/-- A bit reader: the bits left and the number of bits taken so far. -/
structure BitReader where
  bits : List Bool
  pos : Nat
  deriving DecidableEq, Repr

/-- One bit. -/
def BitReader.readBit (r : BitReader) : Option (Bool × BitReader) :=
  match r.bits with
  | [] => none
  | b :: bs => some (b, { bits := bs, pos := r.pos + 1 })

/-- The value of the next `n` bits, the first bit the least significant. -/
def BitReader.readBits : Nat → BitReader → Option (Nat × BitReader)
  | 0, r => some (0, r)
  | n + 1, r =>
    match r.readBit with
    | none => none
    | some (b, r) =>
      match BitReader.readBits n r with
      | none => none
      | some (v, r) => some (b.toNat + 2 * v, r)

/-- The reader moved to the next byte boundary. -/
def BitReader.align (r : BitReader) : BitReader :=
  let k := (8 - r.pos % 8) % 8
  { bits := r.bits.drop k, pos := r.pos + k }

/-- The next `n` bytes. -/
def BitReader.readBytes : Nat → BitReader → Option (List Byte × BitReader)
  | 0, r => some ([], r)
  | n + 1, r =>
    match r.readBits 8 with
    | none => none
    | some (v, r) =>
      match BitReader.readBytes n r with
      | none => none
      | some (bs, r) => some (toByte v :: bs, r)

/-- A canonical Huffman code: the number of codes of each length and the
symbols ordered by code. -/
structure Huffman where
  count : List Nat
  symbol : List Nat
  deriving DecidableEq, Repr

/-- The canonical code of a list of code lengths (length 0: no code). -/
def Huffman.ofLengths (lengths : List Nat) : Huffman :=
  { count := (List.range 16).map fun l => lengths.count l
    symbol := (List.range 15).flatMap fun l =>
      (List.range lengths.length).filter fun s => lengths.getD s 0 = l + 1 }

/-- Decoding of one symbol, bit by bit: `code` is the code read so far,
`first` the first code of the length `len`, `index` the place of its symbol. -/
def Huffman.decodeAux (h : Huffman) :
    Nat → Nat → Nat → Nat → Nat → BitReader → Option (Nat × BitReader)
  | 0, _, _, _, _, _ => none
  | fuel + 1, len, code, first, index, r =>
    match r.readBit with
    | none => none
    | some (b, r) =>
      let code := code + b.toNat
      let count := h.count.getD len 0
      if code < first + count then
        match h.symbol.get? (index + (code - first)) with
        | none => none
        | some s => some (s, r)
      else h.decodeAux fuel (len + 1) (code * 2) ((first + count) * 2) (index + count) r

/-- The next symbol of a code of at most 15 bits. -/
def Huffman.decode (h : Huffman) (r : BitReader) : Option (Nat × BitReader) :=
  h.decodeAux 15 1 0 0 0 r

/-- Base match lengths of the length symbols 257 to 285. -/
def lengthBase : List Nat :=
  [3, 4, 5, 6, 7, 8, 9, 10, 11, 13, 15, 17, 19, 23, 27, 31, 35, 43, 51, 59, 67, 83, 99, 115,
   131, 163, 195, 227, 258]

/-- Extra bits of the length symbols 257 to 285. -/
def lengthExtra : List Nat :=
  [0, 0, 0, 0, 0, 0, 0, 0, 1, 1, 1, 1, 2, 2, 2, 2, 3, 3, 3, 3, 4, 4, 4, 4, 5, 5, 5, 5, 0]

/-- Base distances of the distance symbols 0 to 29. -/
def distBase : List Nat :=
  [1, 2, 3, 4, 5, 7, 9, 13, 17, 25, 33, 49, 65, 97, 129, 193, 257, 385, 513, 769, 1025, 1537,
   2049, 3073, 4097, 6145, 8193, 12289, 16385, 24577]

/-- Extra bits of the distance symbols 0 to 29. -/
def distExtra : List Nat :=
  [0, 0, 0, 0, 1, 1, 2, 2, 3, 3, 4, 4, 5, 5, 6, 6, 7, 7, 8, 8, 9, 9, 10, 10, 11, 11, 12, 12,
   13, 13]

/-- The output with `len` more bytes, each a copy of the byte `dist` back. -/
def copyMatch (out : List Byte) (dist : Nat) : Nat → List Byte
  | 0 => out
  | len + 1 => copyMatch (out ++ [out.getD (out.length - dist) 0]) dist len

/-- The match length of a length symbol (257 to 285): its base length plus
the value of its extra bits. -/
def readLength (sym : Nat) (r : BitReader) : Option (Nat × BitReader) :=
  if sym < 257 ∨ 285 < sym then none
  else
    match r.readBits (lengthExtra.getD (sym - 257) 0) with
    | none => none
    | some (e, r) => some (lengthBase.getD (sym - 257) 0 + e, r)

/-- The match distance: a distance symbol (0 to 29), its base distance plus
the value of its extra bits. -/
def readDistance (distcode : Huffman) (r : BitReader) : Option (Nat × BitReader) :=
  match distcode.decode r with
  | none => none
  | some (ds, r) =>
    if 29 < ds then none
    else
      match r.readBits (distExtra.getD ds 0) with
      | none => none
      | some (x, r) => some (distBase.getD ds 0 + x, r)

/-- The symbols of a compressed block up to its end-of-block symbol:
literals are appended, a length and distance pair copies earlier output. -/
def inflateCodes (lencode distcode : Huffman) :
    Nat → BitReader → List Byte → Option (List Byte × BitReader)
  | 0, _, _ => none
  | fuel + 1, r, out =>
    match lencode.decode r with
    | none => none
    | some (sym, r) =>
      if sym < 256 then inflateCodes lencode distcode fuel r (out ++ [toByte sym])
      else if sym = 256 then some (out, r)
      else
        match readLength sym r with
        | none => none
        | some (len, r) =>
          match readDistance distcode r with
          | none => none
          | some (dist, r) =>
            if dist > out.length then none
            else inflateCodes lencode distcode fuel r (copyMatch out dist len)

/-- A stored block: the reader moves to the byte boundary, reads the length
and its complement, then the bytes. -/
def inflateStored (r : BitReader) (out : List Byte) : Option (List Byte × BitReader) :=
  match r.align.readBits 16 with
  | none => none
  | some (len, r) =>
    match r.readBits 16 with
    | none => none
    | some (nlen, r) =>
      if len + nlen ≠ 65535 then none
      else
        match r.readBytes len with
        | none => none
        | some (bs, r) => some (out ++ bs, r)

/-- The code lengths of the fixed literal and length code. -/
def fixedLengths : List Nat :=
  List.replicate 144 8 ++ List.replicate 112 9 ++ List.replicate 24 7 ++ List.replicate 8 8

/-- The order in which the lengths of the code length code are sent. -/
def codeLengthOrder : List Nat :=
  [16, 17, 18, 0, 8, 7, 9, 6, 10, 5, 11, 4, 12, 3, 13, 2, 14, 1, 15]

/-- The first `n` three-bit lengths of the code length code. -/
def readCodeLengthLengths : Nat → BitReader → Option (List Nat × BitReader)
  | 0, r => some ([], r)
  | n + 1, r =>
    match r.readBits 3 with
    | none => none
    | some (v, r) =>
      match readCodeLengthLengths n r with
      | none => none
      | some (vs, r) => some (v :: vs, r)

/-- The code lengths of a dynamic block, run-length coded with the symbols
16 (repeat the last length), 17 and 18 (runs of zero), until `total` are read. -/
def readCodeLengths (lencode : Huffman) (total : Nat) :
    Nat → BitReader → List Nat → Option (List Nat × BitReader)
  | 0, _, _ => none
  | fuel + 1, r, acc =>
    if acc.length = total then some (acc, r)
    else if acc.length > total then none
    else
      match lencode.decode r with
      | none => none
      | some (sym, r) =>
        if sym < 16 then readCodeLengths lencode total fuel r (acc ++ [sym])
        else if sym = 16 then
          match acc.getLast?, r.readBits 2 with
          | some l, some (v, r) =>
            readCodeLengths lencode total fuel r (acc ++ List.replicate (3 + v) l)
          | _, _ => none
        else if sym = 17 then
          match r.readBits 3 with
          | some (v, r) => readCodeLengths lencode total fuel r (acc ++ List.replicate (3 + v) 0)
          | none => none
        else
          match r.readBits 7 with
          | some (v, r) => readCodeLengths lencode total fuel r (acc ++ List.replicate (11 + v) 0)
          | none => none

/-- A block compressed with dynamic Huffman codes: the counts, the code
length code, the two codes, then the symbols. -/
def inflateDynamic (r : BitReader) (out : List Byte) : Option (List Byte × BitReader) :=
  match r.readBits 5 with
  | none => none
  | some (hlit, r) =>
    match r.readBits 5 with
    | none => none
    | some (hdist, r) =>
      match r.readBits 4 with
      | none => none
      | some (hclen, r) =>
        if hlit + 257 > 286 ∨ hdist + 1 > 30 then none
        else
          match readCodeLengthLengths (hclen + 4) r with
          | none => none
          | some (cl, r) =>
            let clLengths := (List.range 19).map fun s =>
              match codeLengthOrder.indexOf? s with
              | some i => cl.getD i 0
              | none => 0
            match readCodeLengths (Huffman.ofLengths clLengths) (hlit + 257 + (hdist + 1))
                (hlit + 257 + (hdist + 1) + 1) r [] with
            | none => none
            | some (lengths, r) =>
              if lengths.getD 256 0 = 0 then none
              else
                inflateCodes (Huffman.ofLengths (lengths.take (hlit + 257)))
                  (Huffman.ofLengths (lengths.drop (hlit + 257))) (r.bits.length + 1) r out

/-- One block: the final-block flag, the two type bits, then the block. The
result is the flag, the output so far and the reader after the block. -/
def inflateBlock (r : BitReader) (out : List Byte) : Option (Bool × List Byte × BitReader) :=
  match r.readBit with
  | none => none
  | some (final, r) =>
    match r.readBits 2 with
    | none => none
    | some (btype, r) =>
      let res :=
        if btype = 0 then inflateStored r out
        else if btype = 1 then
          inflateCodes (Huffman.ofLengths fixedLengths)
            (Huffman.ofLengths (List.replicate 30 5)) (r.bits.length + 1) r out
        else if btype = 2 then inflateDynamic r out
        else none
      match res with
      | none => none
      | some (out, r) => some (final, out, r)

/-- The blocks of a stream up to and with the final one. -/
def inflateLoop : Nat → BitReader → List Byte → Option (List Byte × BitReader)
  | 0, _, _ => none
  | fuel + 1, r, out =>
    match inflateBlock r out with
    | none => none
    | some (final, out, r) => if final then some (out, r) else inflateLoop fuel r out

/-- Inflating a DEFLATE stream: the data and the reader after the final
block. A block takes at least three bits, so the number of bits bounds the
number of blocks. -/
def inflate (r : BitReader) : Option (List Byte × BitReader) :=
  inflateLoop (r.bits.length + 1) r []

/-! ## Reading back: the zlib container (RFC 1950) -/

/-- Inflating a zlib stream: the two header bytes are checked (method 8,
window at most 32K, a multiple of 31, no preset dictionary), the DEFLATE
stream is inflated, and the four bytes after it must be the big-endian
Adler-32 checksum of the data and end the stream. -/
def zlibInflate (z : List Byte) : Option (List Byte) :=
  match z with
  | cmf :: flg :: body =>
    if cmf.val % 16 ≠ 8 ∨ cmf.val / 16 > 7 ∨ (cmf.val * 256 + flg.val) % 31 ≠ 0 ∨
        flg.val / 32 % 2 = 1 then none
    else
      match inflate { bits := unpackBits body, pos := 0 } with
      | none => none
      | some (out, r) =>
        match r.align.readBytes 4 with
        | some ([a, b, c, d], r) =>
          if r.bits = [] ∧
              a.val * 16777216 + b.val * 65536 + c.val * 256 + d.val = adlerChecksum out
          then some out
          else none
        | _ => none
  | _ => none

/-! ## What the statements are written with -/

/-- The two values `main` accepts for `-format`. -/
def isFormat (f : GoString) : Prop := f = str "rdjson" ∨ f = str "rdjsonl"

instance (f : GoString) : Decidable (isFormat f) := by unfold isFormat; infer_instance

/-- The URL `url.Parse(viewerBaseURL)` returns. -/
def baseURL : URL :=
  { Scheme := str "https", Host := str "reviewdog.github.io", Path := str "/rdjson-viewer" }

/-- The map `q` of `buildViewerURL` when it is encoded. -/
def queryMap (p f b : GoString) : Values :=
  if b ≠ [] then (Values.Set [] f p).Set (str "base_path_url") b else Values.Set [] f p

/-- Query escaping followed by the replacement of `+` by `%20`. -/
def escape20 (s : GoString) : GoString := stringsReplaceAll (QueryEscape s) (ascii '+') (str "%20")

/-- What `escape20` writes for one byte. -/
def escapeByte20 (c : Byte) : GoString :=
  stringsReplaceAll (escapeByte encodeQueryComponent c) (ascii '+') (str "%20")

/-- The bytes escaped text is made of: letters, digits, `-_.~` and `%`. -/
def isQuerySafe (c : Byte) : Bool := isAlnum c || decide (c ∈ str "-_.~%")

/-- The bytes of an encoded query: escaped text, `=` and `&`. -/
def isQueryByte (c : Byte) : Bool := isQuerySafe c || c = ascii '=' || c = ascii '&'

/-- The query parameters a reader of the URL sees: `url.Parse` followed by
`url.ParseQuery` on the raw query, `none` when either reports an error. -/
def queryParams (url : GoString) : Option Values :=
  match Parse url with
  | .error _ => none
  | .ok u =>
    match ParseQuery u.RawQuery with
    | (v, none) => some v
    | (_, some _) => none

/-- The parameter names of a parsed query. -/
def paramNames (v : Values) : List GoString := v.map fun e => e.1

/-- The bits the compressor writes before it closes the stream. -/
def bodyBits (c : FlateCoder) (B : List Byte) : List Bool :=
  if B = [] then [] else c.blocks DefaultCompression B

/-- The four bytes of a 32-bit value, most significant first. -/
def bigEndian32 (v : Nat) : List Byte :=
  [toByte (v / 16777216), toByte (v / 65536), toByte (v / 256), toByte v]


/-- The input a run with the given flags reads: the file when `-file` is
set, else the standard input. -/
def inputOf (env : Env) (fl : Flags) : Except GoString (List Byte) :=
  if fl.inputFile ≠ [] then env.readFile fl.inputFile else env.stdin

/-! ## Sample values -/

/-- A sample of block bits: one stored block, not final, that holds the five
bytes of `hello` (the header byte, the length 5 and its complement, the
data). -/
def helloBits : List Bool :=
  unpackBits [0x00, 0x05, 0x00, 0xfa, 0xff, 0x68, 0x65, 0x6c, 0x6c, 0x6f]

/-- A sample block coder, which writes `helloBits` whatever the data. -/
def helloCoder : FlateCoder := { blocks := fun _ _ => helloBits }

/-- An environment whose file `report.json` and whose standard input both
hold `hello`; no other file can be read. -/
def helloEnv : Env :=
  { readFile := fun path =>
      if path = str "report.json" then .ok (str "hello")
      else .error (str "open: no such file or directory")
    stdin := .ok (str "hello")
    usage := str "Usage of rdjson-viewer:\n" }

/-! ## Lemmas on `strings` and `net/url` -/

theorem stringsReplaceAll_append (a b : GoString) (o : Byte) (n : GoString) :
    stringsReplaceAll (a ++ b) o n = stringsReplaceAll a o n ++ stringsReplaceAll b o n := by
  simp [stringsReplaceAll, List.flatMap_append]

theorem stringsReplaceAll_cons (c : Byte) (s : GoString) (o : Byte) (n : GoString) :
    stringsReplaceAll (c :: s) o n = (if c = o then n else [c]) ++ stringsReplaceAll s o n := by
  simp [stringsReplaceAll]

theorem not_mem_stringsReplaceAll (s : GoString) (o : Byte) (n : GoString) (h : o ∉ n) :
    o ∉ stringsReplaceAll s o n := by
  induction s with
  | nil => simp [stringsReplaceAll]
  | cons c s ih =>
    rw [stringsReplaceAll_cons, List.mem_append]
    rintro (hm | hm)
    · by_cases hc : c = o
      · rw [if_pos hc] at hm; exact h hm
      · rw [if_neg hc, List.mem_singleton] at hm; exact hc hm.symm
    · exact ih hm

theorem stringsCut_not_mem (sep : Byte) (s : GoString) (h : sep ∉ s) :
    stringsCut sep s = (s, [], false) := by
  induction s with
  | nil => rfl
  | cons c s ih =>
    have hc : c ≠ sep := fun e => h (by simp [e])
    have hs : sep ∉ s := fun e => h (by simp [e])
    simp [stringsCut, hc, ih hs]

theorem stringsCut_append (sep : Byte) (a b : GoString) (h : sep ∉ a) :
    stringsCut sep (a ++ sep :: b) = (a, b, true) := by
  induction a with
  | nil => simp [stringsCut]
  | cons c s ih =>
    have hc : c ≠ sep := fun e => h (by simp [e])
    have hs : sep ∉ s := fun e => h (by simp [e])
    simp [stringsCut, hc, ih hs]

theorem splitBy_not_mem (sep : Byte) (s : GoString) (h : sep ∉ s) : splitBy sep s = [s] := by
  induction s with
  | nil => rfl
  | cons c s ih =>
    have hc : c ≠ sep := fun e => h (by simp [e])
    have hs : sep ∉ s := fun e => h (by simp [e])
    simp [splitBy, hc, ih hs]

theorem splitBy_append (sep : Byte) (a b : GoString) (h : sep ∉ a) :
    splitBy sep (a ++ sep :: b) = a :: splitBy sep b := by
  induction a with
  | nil => simp [splitBy]
  | cons c s ih =>
    have hc : c ≠ sep := fun e => h (by simp [e])
    have hs : sep ∉ s := fun e => h (by simp [e])
    simp [splitBy, hc, ih hs]

theorem escape20_nil : escape20 [] = [] := rfl

theorem escape20_cons (c : Byte) (s : GoString) :
    escape20 (c :: s) = escapeByte20 c ++ escape20 s := by
  simp [escape20, QueryEscape, escape, escapeByte20, stringsReplaceAll, List.flatMap_append]

theorem escape20_append (s t : GoString) : escape20 (s ++ t) = escape20 s ++ escape20 t := by
  simp [escape20, QueryEscape, escape, stringsReplaceAll, List.flatMap_append]

theorem escapeByte20_cases : ∀ c : Byte,
    (escapeByte20 c = [c] ∧ c ≠ ascii '%' ∧ c ≠ ascii '+' ∧ isQuerySafe c = true) ∨
    (escapeByte20 c = [ascii '%', hexDigit (c.val / 16), hexDigit (c.val % 16)] ∧
        ishex (hexDigit (c.val / 16)) = true ∧ ishex (hexDigit (c.val % 16)) = true ∧
        unhex (hexDigit (c.val / 16)) * 16 + unhex (hexDigit (c.val % 16)) = c ∧
        isQuerySafe (hexDigit (c.val / 16)) = true ∧
        isQuerySafe (hexDigit (c.val % 16)) = true) := by
  decide!

theorem unescape_step (c : Byte) (t : GoString) :
    unescapeCheck encodeQueryComponent (escapeByte20 c ++ t) =
        unescapeCheck encodeQueryComponent t ∧
      unescapeBytes encodeQueryComponent (escapeByte20 c ++ t) =
        c :: unescapeBytes encodeQueryComponent t := by
  rcases escapeByte20_cases c with ⟨h, h1, h2, _⟩ | ⟨h, hx, hy, hv, _⟩
  · rw [h]; simp only [List.cons_append, List.nil_append]
    rcases t with _ | ⟨a, _ | ⟨b, t⟩⟩ <;> simp [unescapeCheck, unescapeBytes, h1, h2]
  · rw [h]; simp [unescapeCheck, unescapeBytes, hx, hy, hv]

theorem QueryUnescape_escape20 (s : GoString) : QueryUnescape (escape20 s) = .ok s := by
  have h : unescapeCheck encodeQueryComponent (escape20 s) = none ∧
      unescapeBytes encodeQueryComponent (escape20 s) = s := by
    induction s with
    | nil => exact ⟨rfl, rfl⟩
    | cons c s ih =>
      rw [escape20_cons, (unescape_step c _).1, (unescape_step c _).2, ih.1, ih.2]
      exact ⟨rfl, rfl⟩
  simp [QueryUnescape, unescape, h.1, h.2]

theorem escape20_safe (s : GoString) : ∀ c ∈ escape20 s, isQuerySafe c = true := by
  induction s with
  | nil => simp [escape20_nil]
  | cons c s ih =>
    intro d hd
    rw [escape20_cons, List.mem_append] at hd
    rcases hd with hd | hd
    · rcases escapeByte20_cases c with ⟨h, _, _, hs⟩ | ⟨h, _, _, _, hx, hy⟩
      · rw [h] at hd; simp at hd; rw [hd]; exact hs
      · rw [h] at hd; simp at hd
        rcases hd with rfl | rfl | rfl
        · rfl
        · exact hx
        · exact hy
    · exact ih d hd

theorem isQuerySafe_facts : ∀ c : Byte, isQuerySafe c = true →
    c ≠ ascii '=' ∧ c ≠ ascii '&' ∧ c ≠ ascii ';' ∧ isQueryByte c = true := by
  decide!

theorem isQueryByte_facts : ∀ c : Byte, isQueryByte c = true →
    c ≠ ascii '#' ∧ c ≠ ascii '?' ∧ c ≠ ascii '+' ∧ c ≠ ascii ';' ∧ c ≠ ascii '\n' ∧
    (decide (c < ascii ' ') || decide (c = 0x7f)) = false := by
  decide!

theorem escape20_not_mem (s : GoString) :
    ascii '=' ∉ escape20 s ∧ ascii '&' ∉ escape20 s ∧ ascii ';' ∉ escape20 s := by
  refine ⟨fun h => ?_, fun h => ?_, fun h => ?_⟩
  · exact (isQuerySafe_facts _ (escape20_safe s _ h)).1 rfl
  · exact (isQuerySafe_facts _ (escape20_safe s _ h)).2.1 rfl
  · exact (isQuerySafe_facts _ (escape20_safe s _ h)).2.2.1 rfl

/-- One `key=value` setting of an encoded query is read back as the key and
the value. -/
theorem parseQueryPiece_setting (acc : Values) (err : Option GoString) (k v : GoString) :
    parseQueryPiece (acc, err) (escape20 k ++ ascii '=' :: escape20 v) =
      (acc.assign k (acc.lookup k ++ [v]), err) := by
  have hsemi : ascii ';' ∉ escape20 k ++ ascii '=' :: escape20 v := by
    rw [List.mem_append, List.mem_cons]
    rintro (h | h | h)
    · exact (escape20_not_mem k).2.2 h
    · revert h; decide
    · exact (escape20_not_mem v).2.2 h
  have hne : escape20 k ++ ascii '=' :: escape20 v ≠ [] := by simp
  unfold parseQueryPiece
  rw [if_neg hsemi, if_neg hne]
  simp only [stringsCut_append _ _ _ (escape20_not_mem k).1, QueryUnescape_escape20]

theorem pair_not_amp (k v : GoString) : ascii '&' ∉ escape20 k ++ ascii '=' :: escape20 v := by
  rw [List.mem_append, List.mem_cons]
  rintro (h | h | h)
  · exact (escape20_not_mem k).2.1 h
  · revert h; decide
  · exact (escape20_not_mem v).2.1 h

theorem ParseQuery_one (k v : GoString) :
    ParseQuery (escape20 k ++ ascii '=' :: escape20 v) = ([(k, [v])], none) := by
  have hne : escape20 k ++ ascii '=' :: escape20 v ≠ [] := by simp
  unfold ParseQuery
  rw [if_neg hne, splitBy_not_mem _ _ (pair_not_amp k v)]
  simp [parseQueryPiece_setting, Values.assign, Values.lookup]

theorem ParseQuery_two (k1 v1 k2 v2 : GoString) (hk : k1 ≠ k2) :
    ParseQuery (escape20 k1 ++ ascii '=' :: escape20 v1 ++
        ascii '&' :: (escape20 k2 ++ ascii '=' :: escape20 v2)) =
      ([(k1, [v1]), (k2, [v2])], none) := by
  have hne : escape20 k1 ++ ascii '=' :: escape20 v1 ++
      ascii '&' :: (escape20 k2 ++ ascii '=' :: escape20 v2) ≠ [] := by simp
  unfold ParseQuery
  rw [if_neg hne]
  have e : escape20 k1 ++ ascii '=' :: escape20 v1 ++
      ascii '&' :: (escape20 k2 ++ ascii '=' :: escape20 v2) =
      (escape20 k1 ++ ascii '=' :: escape20 v1) ++
      ascii '&' :: (escape20 k2 ++ ascii '=' :: escape20 v2) := by simp
  rw [e, splitBy_append _ _ _ (pair_not_amp k1 v1), splitBy_not_mem _ _ (pair_not_amp k2 v2)]
  simp [parseQueryPiece_setting, Values.assign, Values.lookup, hk]

/-! ## The shape of the viewer URL -/

theorem Parse_viewerBaseURL : Parse viewerBaseURL = .ok baseURL := by rfl

theorem String_withQuery (q : GoString) (h : q ≠ []) :
    ({ baseURL with RawQuery := q } : URL).String = viewerBaseURL ++ [ascii '?'] ++ q := by
  have e1 : ({ baseURL with RawQuery := q } : URL).EscapedPath = str "/rdjson-viewer" := by rfl
  unfold URL.String
  rw [e1]
  simp [baseURL, h]
  rfl

theorem Encode_queryMap (p f b : GoString) :
    (queryMap p f b).Encode =
      if b = [] then QueryEscape f ++ ascii '=' :: QueryEscape p
      else if f = str "base_path_url" then QueryEscape f ++ ascii '=' :: QueryEscape b
      else if strLt (str "base_path_url") f then
        QueryEscape (str "base_path_url") ++ ascii '=' :: QueryEscape b ++
          ascii '&' :: QueryEscape f ++ ascii '=' :: QueryEscape p
      else
        QueryEscape f ++ ascii '=' :: QueryEscape p ++
          ascii '&' :: QueryEscape (str "base_path_url") ++ ascii '=' :: QueryEscape b := by
  by_cases hb : b = []
  · simp [queryMap, hb, Values.Set, Values.assign, Values.Encode, sortKeys, insertKey,
      Values.lookup]
  · by_cases hf : f = str "base_path_url"
    · simp [queryMap, hb, hf, Values.Set, Values.assign, Values.Encode, sortKeys, insertKey,
        Values.lookup]
    · have hf2 : ¬ (str "base_path_url" = f) := fun h => hf h.symm
      by_cases hlt : strLt (str "base_path_url") f
      · simp [queryMap, hb, hf, hf2, hlt, Values.Set, Values.assign, Values.Encode, sortKeys,
          insertKey, Values.lookup]
      · simp [queryMap, hb, hf, hf2, hlt, Values.Set, Values.assign, Values.Encode, sortKeys,
          insertKey, Values.lookup]

theorem Encode_queryMap_ne_nil (p f b : GoString) : (queryMap p f b).Encode ≠ [] := by
  rw [Encode_queryMap]
  split_ifs <;> simp

theorem buildViewerURL_eq (p f b : GoString) :
    buildViewerURL p f b =
      .ok (stringsReplaceAll (viewerBaseURL ++ [ascii '?'] ++ (queryMap p f b).Encode)
        (ascii '+') (str "%20")) := by
  unfold buildViewerURL
  rw [Parse_viewerBaseURL]
  simp only []
  have hq : baseURL.Query = [] := by rfl
  rw [hq]
  have h := String_withQuery _ (Encode_queryMap_ne_nil p f b)
  unfold queryMap at h ⊢
  exact congrArg (fun s => Except.ok (stringsReplaceAll s (ascii '+') (str "%20"))) h

/-- The encoded query of the viewer URL, for any format text. -/
theorem buildViewerURL_general (p f b : GoString) :
    buildViewerURL p f b =
      .ok (viewerBaseURL ++ ascii '?' ::
        (if b = [] then escape20 f ++ ascii '=' :: escape20 p
         else if f = str "base_path_url" then escape20 f ++ ascii '=' :: escape20 b
         else if strLt (str "base_path_url") f then
           escape20 (str "base_path_url") ++ ascii '=' :: escape20 b ++
             ascii '&' :: (escape20 f ++ ascii '=' :: escape20 p)
         else
           escape20 f ++ ascii '=' :: escape20 p ++
             ascii '&' :: (escape20 (str "base_path_url") ++ ascii '=' :: escape20 b))) := by
  rw [buildViewerURL_eq, Encode_queryMap]
  have hbase : stringsReplaceAll viewerBaseURL (ascii '+') (str "%20") = viewerBaseURL := by
    decide
  have hq : stringsReplaceAll [ascii '?'] (ascii '+') (str "%20") = [ascii '?'] := by decide
  have hcons : ∀ (c : Byte) (s : GoString), c ≠ ascii '+' →
      stringsReplaceAll (c :: s) (ascii '+') (str "%20") =
        c :: stringsReplaceAll s (ascii '+') (str "%20") := by
    intro c s hc
    rw [stringsReplaceAll_cons, if_neg hc]; rfl
  have heq : (ascii '=' : Byte) ≠ ascii '+' := by decide
  have hamp : (ascii '&' : Byte) ≠ ascii '+' := by decide
  congr 1
  rw [stringsReplaceAll_append, stringsReplaceAll_append, hbase, hq]
  simp only [List.append_assoc, List.singleton_append]
  congr 2
  split_ifs <;>
    simp only [stringsReplaceAll_append, hcons _ _ heq, hcons _ _ hamp, escape20,
      List.append_assoc, List.cons_append]

theorem isFormat_escape20 (f : GoString) (hf : isFormat f) :
    escape20 f = f ∧ f ≠ str "base_path_url" ∧ strLt (str "base_path_url") f = true := by
  rcases hf with rfl | rfl <;> decide

/-- The viewer URL for one of the two formats, in terms of `escape20`. -/
theorem buildViewerURL_formats (p f b : GoString) (hf : isFormat f) :
    buildViewerURL p f b =
      .ok (viewerBaseURL ++ ascii '?' ::
        (if b = [] then f ++ ascii '=' :: escape20 p
         else str "base_path_url" ++ ascii '=' :: escape20 b ++
             ascii '&' :: (f ++ ascii '=' :: escape20 p))) := by
  obtain ⟨h1, h2, h3⟩ := isFormat_escape20 f hf
  have h4 : escape20 (str "base_path_url") = str "base_path_url" := by decide
  rw [buildViewerURL_general, h1, h4, if_neg h2, if_pos h3]

theorem query_bytes_one (k v : GoString) :
    ∀ c ∈ escape20 k ++ ascii '=' :: escape20 v, isQueryByte c = true := by
  intro c hc
  rw [List.mem_append, List.mem_cons] at hc
  rcases hc with h | h | h
  · exact (isQuerySafe_facts _ (escape20_safe k _ h)).2.2.2
  · rw [h]; decide
  · exact (isQuerySafe_facts _ (escape20_safe v _ h)).2.2.2

theorem query_bytes_two (k1 v1 k2 v2 : GoString) :
    ∀ c ∈ escape20 k1 ++ ascii '=' :: escape20 v1 ++
        ascii '&' :: (escape20 k2 ++ ascii '=' :: escape20 v2), isQueryByte c = true := by
  intro c hc
  rw [List.mem_append, List.mem_cons] at hc
  rcases hc with h | h | h
  · exact query_bytes_one k1 v1 c h
  · rw [h]; decide
  · exact query_bytes_one k2 v2 c h

theorem Parse_built (body : GoString) (hsafe : ∀ c ∈ body, isQueryByte c = true)
    (hne : body ≠ []) :
    Parse (viewerBaseURL ++ ascii '?' :: body) = .ok { baseURL with RawQuery := body } := by
  have hhash : ascii '#' ∉ viewerBaseURL ++ ascii '?' :: body := by
    intro hm
    rw [List.mem_append, List.mem_cons] at hm
    rcases hm with hm | hm | hm
    · revert hm; decide
    · revert hm; decide
    · exact (isQueryByte_facts _ (hsafe _ hm)).1 rfl
  have hctl : stringContainsCTLByte (viewerBaseURL ++ ascii '?' :: body) = false := by
    unfold stringContainsCTLByte
    rw [List.any_append, List.any_cons]
    have h1 : (viewerBaseURL.any fun b => decide (b < ascii ' ') || decide (b = 0x7f)) =
        false := by decide
    have h2 : (body.any fun b => decide (b < ascii ' ') || decide (b = 0x7f)) = false := by
      rw [List.any_eq_false]
      intro x hx
      simp only [(isQueryByte_facts _ (hsafe _ hx)).2.2.2.2.2]
      exact Bool.false_ne_true
    rw [h1, h2]; decide
  have hstar : viewerBaseURL ++ ascii '?' :: body ≠ str "*" := by
    intro h
    have := congrArg List.length h
    simp [viewerBaseURL, str] at this
  have hscheme : getScheme (viewerBaseURL ++ ascii '?' :: body) =
      .ok (str "https", str "//reviewdog.github.io/rdjson-viewer" ++ ascii '?' :: body) := by
    rfl
  have hcut : stringsCut (ascii '?')
      (str "//reviewdog.github.io/rdjson-viewer" ++ ascii '?' :: body) =
      (str "//reviewdog.github.io/rdjson-viewer", body, true) :=
    stringsCut_append _ _ _ (by decide)
  unfold Parse
  rw [stringsCut_not_mem _ _ hhash]
  simp only []
  unfold parseNoFragment
  rw [hctl]
  simp only [hstar, if_false, hscheme, hcut, Bool.false_eq_true, hne, decide_False,
    Bool.and_false]
  rfl

/-- What a reader of the viewer URL gets back, for one of the two formats. -/
theorem queryParams_built (p f b : GoString) (hf : isFormat f) :
    ∃ url, buildViewerURL p f b = .ok url ∧
      queryParams url =
        some (if b = [] then [(f, [p])] else [(str "base_path_url", [b]), (f, [p])]) := by
  obtain ⟨h1, h2, _⟩ := isFormat_escape20 f hf
  have h4 : escape20 (str "base_path_url") = str "base_path_url" := by decide
  refine ⟨_, buildViewerURL_formats p f b hf, ?_⟩
  by_cases hb : b = []
  · simp only [hb, if_true]
    have hbody := query_bytes_one f p
    rw [h1] at hbody
    unfold queryParams
    rw [Parse_built _ hbody (by simp)]
    have hq := ParseQuery_one f p
    rw [h1] at hq
    simp only [hq]
  · simp only [hb, if_false]
    have hbody := query_bytes_two (str "base_path_url") b f p
    rw [h1, h4] at hbody
    unfold queryParams
    rw [Parse_built _ hbody (by simp)]
    have hq := ParseQuery_two (str "base_path_url") b f p (fun h => h2 h.symm)
    rw [h1, h4] at hq
    simp only [hq]

/-! ## Claims on `buildViewerURL` -/

/-- C2 (as stated, refuted): for payload `x`, format `rdjson` and base path
`y` the URL is `...?base_path_url=y&rdjson=x`, not the format parameter
followed by `&base_path_url=`. -/
theorem buildViewerURL_format_first_counterexample :
    buildViewerURL (str "x") (str "rdjson") (str "y") =
        .ok (str "https://reviewdog.github.io/rdjson-viewer?base_path_url=y&rdjson=x") ∧
      buildViewerURL (str "x") (str "rdjson") (str "y") ≠
        .ok (str "https://reviewdog.github.io/rdjson-viewer?" ++ str "rdjson" ++ str "=" ++
          escape20 (str "x") ++ str "&base_path_url=" ++ escape20 (str "y")) := by
  decide!

/-- C2 (amended): for every payload `p`, format `f` in rdjson, rdjsonl and
base path `b`, the URL is the base endpoint, `?`, `f`, `=` and the encoded
`p` when `b` is empty, and is the base endpoint, `?base_path_url=`, the
encoded `b`, `&`, `f`, `=` and the encoded `p` when `b` is not empty, where
encoding is query escaping with `+` replaced by `%20`. -/
theorem buildViewerURL_shape (p f b : GoString) (hf : isFormat f) :
    buildViewerURL p f b =
      .ok (if b = [] then
          str "https://reviewdog.github.io/rdjson-viewer?" ++ f ++ str "=" ++
            stringsReplaceAll (QueryEscape p) (ascii '+') (str "%20")
        else
          str "https://reviewdog.github.io/rdjson-viewer?" ++ str "base_path_url=" ++
            stringsReplaceAll (QueryEscape b) (ascii '+') (str "%20") ++ str "&" ++ f ++
            str "=" ++ stringsReplaceAll (QueryEscape p) (ascii '+') (str "%20")) := by
  rw [buildViewerURL_formats p f b hf]
  congr 1
  have e1 : str "https://reviewdog.github.io/rdjson-viewer?" = viewerBaseURL ++ [ascii '?'] := by
    decide
  have e2 : str "base_path_url=" = str "base_path_url" ++ [ascii '='] := by decide
  have e3 : str "=" = [ascii '='] := by decide
  have e4 : str "&" = [ascii '&'] := by decide
  rw [e1, e2, e3, e4]
  split_ifs <;> simp [escape20]

theorem buildViewerURL_shape_witness :
    isFormat (str "rdjsonl") ∧
      buildViewerURL (str "a b+c") (str "rdjsonl") (str "https://example.com") =
        .ok (if str "https://example.com" = [] then
          str "https://reviewdog.github.io/rdjson-viewer?" ++ str "rdjsonl" ++ str "=" ++
            stringsReplaceAll (QueryEscape (str "a b+c")) (ascii '+') (str "%20")
        else
          str "https://reviewdog.github.io/rdjson-viewer?" ++ str "base_path_url=" ++
            stringsReplaceAll (QueryEscape (str "https://example.com")) (ascii '+')
              (str "%20") ++ str "&" ++ str "rdjsonl" ++
            str "=" ++ stringsReplaceAll (QueryEscape (str "a b+c")) (ascii '+') (str "%20")) :=
  ⟨by decide, buildViewerURL_shape _ _ _ (by decide)⟩

/-- C3: for every payload `p` (whatever bytes it holds), format `f` in rdjson,
rdjsonl and base path `b`, the URL parses, and a name is a query parameter
of it exactly when it is `f`, or `b` is not empty and it is `base_path_url`. -/
theorem buildViewerURL_param_names (p f b : GoString) (hf : isFormat f) :
    ∃ url v, buildViewerURL p f b = .ok url ∧ queryParams url = some v ∧
      ∀ k, k ∈ paramNames v ↔ (k = f ∨ (b ≠ [] ∧ k = str "base_path_url")) := by
  obtain ⟨url, h1, h2⟩ := queryParams_built p f b hf
  refine ⟨url, _, h1, h2, ?_⟩
  intro k
  by_cases hb : b = []
  · simp [hb, paramNames]
  · simp [hb, paramNames]
    exact or_comm

theorem buildViewerURL_param_names_witness :
    isFormat (str "rdjson") ∧
      ∃ url v, buildViewerURL (str "a&base_path_url=b=c") (str "rdjson") (str "") = .ok url ∧
        queryParams url = some v ∧
        ∀ k, k ∈ paramNames v ↔ (k = str "rdjson" ∨ (str "" ≠ [] ∧ k = str "base_path_url")) :=
  ⟨by decide, buildViewerURL_param_names _ _ _ (by decide)⟩

/-- C4: for every payload `p`, format `f` and base path `b`, the URL holds no
`+` byte: it is the serialized URL with every `+` replaced by `%20`, its
query is made of the keys and values escaped and then so replaced, a space
of a value, which query escaping writes as `+`, stands as `%20`, and a `+`
of a value stands as `%2B`. -/
theorem buildViewerURL_no_plus (p f b : GoString) :
    ∃ url, buildViewerURL p f b = .ok url ∧ ascii '+' ∉ url ∧
      url = stringsReplaceAll (viewerBaseURL ++ [ascii '?'] ++ (queryMap p f b).Encode)
        (ascii '+') (str "%20") ∧
      url = viewerBaseURL ++ ascii '?' ::
        (if b = [] then escape20 f ++ ascii '=' :: escape20 p
         else if f = str "base_path_url" then escape20 f ++ ascii '=' :: escape20 b
         else if strLt (str "base_path_url") f then
           escape20 (str "base_path_url") ++ ascii '=' :: escape20 b ++
             ascii '&' :: (escape20 f ++ ascii '=' :: escape20 p)
         else
           escape20 f ++ ascii '=' :: escape20 p ++
             ascii '&' :: (escape20 (str "base_path_url") ++ ascii '=' :: escape20 b)) ∧
      (∀ x y : GoString,
        QueryEscape (x ++ ascii ' ' :: y) = QueryEscape x ++ str "+" ++ QueryEscape y ∧
        escape20 (x ++ ascii ' ' :: y) = escape20 x ++ str "%20" ++ escape20 y ∧
        escape20 (x ++ ascii '+' :: y) = escape20 x ++ str "%2B" ++ escape20 y) := by
  have hg := buildViewerURL_general p f b
  rw [buildViewerURL_eq] at hg
  simp only [Except.ok.injEq] at hg
  refine ⟨_, buildViewerURL_eq p f b, ?_, rfl, hg, ?_⟩
  · exact not_mem_stringsReplaceAll _ _ _ (by decide)
  · intro x y
    refine ⟨?_, ?_, ?_⟩
    · simp only [QueryEscape, escape, List.flatMap_append, List.flatMap_cons, List.append_assoc]
      rfl
    · rw [escape20_append, escape20_cons, List.append_assoc]; rfl
    · rw [escape20_append, escape20_cons, List.append_assoc]; rfl

/-- C5: for every payload `p`, format `f` in rdjson, rdjsonl and non-empty
base path `b`, parsing the URL and its query gives back the values as they
were: parameter `f` is exactly `p` and parameter `base_path_url` is exactly
`b`. -/
theorem buildViewerURL_values_roundtrip (p f b : GoString) (hf : isFormat f) (hb : b ≠ []) :
    ∃ url v, buildViewerURL p f b = .ok url ∧ queryParams url = some v ∧
      v.lookup f = [p] ∧ v.lookup (str "base_path_url") = [b] := by
  obtain ⟨url, h1, h2⟩ := queryParams_built p f b hf
  obtain ⟨_, h3, _⟩ := isFormat_escape20 f hf
  refine ⟨url, _, h1, h2, ?_⟩
  have hd : decide (str "base_path_url" = f) = false := decide_eq_false fun h => h3 h.symm
  simp [hb, Values.lookup, List.find?, hd]

theorem buildViewerURL_values_roundtrip_witness :
    isFormat (str "rdjsonl") ∧ str "/x y+z" ≠ [] ∧
      ∃ url v, buildViewerURL (str "a+b c&d=e%f#g") (str "rdjsonl") (str "/x y+z") = .ok url ∧
        queryParams url = some v ∧
        v.lookup (str "rdjsonl") = [str "a+b c&d=e%f#g"] ∧
        v.lookup (str "base_path_url") = [str "/x y+z"] :=
  ⟨by decide, by decide, buildViewerURL_values_roundtrip _ _ _ (by decide) (by decide)⟩

/-- C10: for every payload `p`, format `f` in rdjson, rdjsonl and base path
`b`, the fixed base endpoint parses and `buildViewerURL` returns no error,
and the parameters stand in ascending
key order: `base_path_url` is below `f`, and for a non-empty `b` the URL is
the base endpoint, `?base_path_url=`, the encoded `b`, `&`, `f`, `=` and the
encoded `p`. -/
theorem buildViewerURL_key_order (p f b : GoString) (hf : isFormat f) :
    Parse viewerBaseURL = .ok baseURL ∧
      (∃ url, buildViewerURL p f b = .ok url) ∧
      strLt (str "base_path_url") f = true ∧
      sortKeys [f, str "base_path_url"] = [str "base_path_url", f] ∧
      (b ≠ [] →
        buildViewerURL p f b =
          .ok (viewerBaseURL ++ str "?base_path_url=" ++ escape20 b ++ str "&" ++ f ++
            str "=" ++ escape20 p)) := by
  obtain ⟨_, _, h3⟩ := isFormat_escape20 f hf
  refine ⟨Parse_viewerBaseURL, ⟨_, buildViewerURL_formats p f b hf⟩, h3, ?_, ?_⟩
  · simp [sortKeys, insertKey, h3]
  · intro hb
    rw [buildViewerURL_formats p f b hf, if_neg hb]
    congr 1
    have e2 : str "?base_path_url=" = ascii '?' :: (str "base_path_url" ++ [ascii '=']) := by
      decide
    have e3 : str "=" = [ascii '='] := by decide
    have e4 : str "&" = [ascii '&'] := by decide
    rw [e2, e3, e4]
    simp

theorem buildViewerURL_key_order_witness :
    isFormat (str "rdjson") ∧
      Parse viewerBaseURL = .ok baseURL ∧
      (∃ url, buildViewerURL (str "p q") (str "rdjson") (str "b+c") = .ok url) ∧
      strLt (str "base_path_url") (str "rdjson") = true ∧
      sortKeys [str "rdjson", str "base_path_url"] = [str "base_path_url", str "rdjson"] ∧
      (str "b+c" ≠ [] →
        buildViewerURL (str "p q") (str "rdjson") (str "b+c") =
          .ok (viewerBaseURL ++ str "?base_path_url=" ++ escape20 (str "b+c") ++ str "&" ++
            str "rdjson" ++ str "=" ++ escape20 (str "p q"))) :=
  ⟨by decide, buildViewerURL_key_order _ _ _ (by decide)⟩

/-! ## Lemmas on base64 -/

theorem decodeChar_encodeChar : ∀ n : Fin 64,
    decodeChar (encodeChar n.val) = some n.val ∧ encodeChar n.val ≠ ascii '=' := by
  decide

theorem decodeChar_encodeChar_mod (n : Nat) :
    decodeChar (encodeChar (n % 64)) = some (n % 64) ∧ encodeChar (n % 64) ≠ ascii '=' :=
  decodeChar_encodeChar ⟨n % 64, Nat.mod_lt _ (by decide)⟩

theorem toByte_val (b : Byte) : toByte b.val = b := by
  apply Fin.ext
  simp [toByte, Nat.mod_eq_of_lt b.isLt]

theorem toByte_eq (n : Nat) (b : Byte) (h : n = b.val) : toByte n = b := by
  rw [h]; exact toByte_val b

/-- Standard padded base64 decoding undoes `EncodeToString`. -/
theorem DecodeString_EncodeToString (bs : List Byte) :
    DecodeString (EncodeToString bs) = some bs := by
  induction bs using EncodeToString.induct with
  | case1 => rfl
  | case2 a =>
    have ha := a.isLt
    simp only [EncodeToString, DecodeString]
    rw [(decodeChar_encodeChar_mod _).1, (decodeChar_encodeChar_mod _).1]
    simp only [and_self, if_true]
    congr 2
    apply toByte_eq; omega
  | case3 a b =>
    have ha := a.isLt
    have hb := b.isLt
    simp only [EncodeToString, DecodeString]
    rw [(decodeChar_encodeChar_mod _).1, (decodeChar_encodeChar_mod _).1,
      (decodeChar_encodeChar_mod _).1]
    simp only [(decodeChar_encodeChar_mod _).2, if_false, if_true]
    congr 2
    · apply toByte_eq; omega
    · congr 1; apply toByte_eq; omega
  | case4 a b c rest ih =>
    have ha := a.isLt
    have hb := b.isLt
    have hc := c.isLt
    simp only [EncodeToString, DecodeString]
    rw [(decodeChar_encodeChar_mod _).1, (decodeChar_encodeChar_mod _).1,
      (decodeChar_encodeChar_mod _).1, (decodeChar_encodeChar_mod _).1]
    simp only [(decodeChar_encodeChar_mod _).2, if_false, ih]
    congr 2
    · apply toByte_eq; omega
    · congr 1
      · apply toByte_eq; omega
      · congr 1; apply toByte_eq; omega

/-! ## Lemmas on bits -/

theorem bitsOfByte_pack8 : ∀ b0 b1 b2 b3 b4 b5 b6 b7 : Bool,
    bitsOfByte (toByte (bitsToNat [b0, b1, b2, b3, b4, b5, b6, b7])) =
      [b0, b1, b2, b3, b4, b5, b6, b7] := by
  decide

theorem bitsOfByte_pack_short : ∀ b0 b1 b2 b3 b4 b5 b6 : Bool,
    bitsOfByte (toByte (bitsToNat [b0])) = [b0] ++ List.replicate 7 false ∧
    bitsOfByte (toByte (bitsToNat [b0, b1])) = [b0, b1] ++ List.replicate 6 false ∧
    bitsOfByte (toByte (bitsToNat [b0, b1, b2])) = [b0, b1, b2] ++ List.replicate 5 false ∧
    bitsOfByte (toByte (bitsToNat [b0, b1, b2, b3])) =
      [b0, b1, b2, b3] ++ List.replicate 4 false ∧
    bitsOfByte (toByte (bitsToNat [b0, b1, b2, b3, b4])) =
      [b0, b1, b2, b3, b4] ++ List.replicate 3 false ∧
    bitsOfByte (toByte (bitsToNat [b0, b1, b2, b3, b4, b5])) =
      [b0, b1, b2, b3, b4, b5] ++ List.replicate 2 false ∧
    bitsOfByte (toByte (bitsToNat [b0, b1, b2, b3, b4, b5, b6])) =
      [b0, b1, b2, b3, b4, b5, b6] ++ List.replicate 1 false := by
  decide

/-- What the bit writer wrote is read back as the bits written, followed by
the zero bits that fill the last byte. -/
theorem unpackBits_packBits (bs : List Bool) :
    unpackBits (packBits bs) = bs ++ List.replicate ((8 - bs.length % 8) % 8) false := by
  induction bs using packBits.induct with
  | case1 => rfl
  | case2 b0 b1 b2 b3 b4 b5 b6 b7 rest ih =>
    have hlen : (8 - (b0 :: b1 :: b2 :: b3 :: b4 :: b5 :: b6 :: b7 :: rest).length % 8) % 8 =
        (8 - rest.length % 8) % 8 := by
      simp only [List.length_cons]; omega
    rw [hlen]
    simp only [packBits, unpackBits, List.flatMap_cons] at ih ⊢
    rw [ih, bitsOfByte_pack8]
    rfl
  | case3 bs h1 h2 =>
    rcases bs with _ | ⟨b0, _ | ⟨b1, _ | ⟨b2, _ | ⟨b3, _ | ⟨b4, _ | ⟨b5, _ | ⟨b6, _ | ⟨b7, t⟩⟩⟩⟩⟩⟩⟩⟩
    · exact absurd rfl h1
    · simp [packBits, unpackBits, (bitsOfByte_pack_short b0 b0 b0 b0 b0 b0 b0).1]
    · simp [packBits, unpackBits, (bitsOfByte_pack_short b0 b1 b0 b0 b0 b0 b0).2.1]
    · simp [packBits, unpackBits, (bitsOfByte_pack_short b0 b1 b2 b0 b0 b0 b0).2.2.1]
    · simp [packBits, unpackBits, (bitsOfByte_pack_short b0 b1 b2 b3 b0 b0 b0).2.2.2.1]
    · simp [packBits, unpackBits, (bitsOfByte_pack_short b0 b1 b2 b3 b4 b0 b0).2.2.2.2.1]
    · simp [packBits, unpackBits, (bitsOfByte_pack_short b0 b1 b2 b3 b4 b5 b0).2.2.2.2.2.1]
    · simp [packBits, unpackBits, (bitsOfByte_pack_short b0 b1 b2 b3 b4 b5 b6).2.2.2.2.2.2]
    · exact absurd rfl (h2 b0 b1 b2 b3 b4 b5 b6 b7 t)

theorem unpackBits_append (a b : List Byte) :
    unpackBits (a ++ b) = unpackBits a ++ unpackBits b := by
  simp [unpackBits, List.flatMap_append]

theorem unpackBits_cons (a : Byte) (b : List Byte) :
    unpackBits (a :: b) = bitsOfByte a ++ unpackBits b := by
  simp [unpackBits]

theorem bitsOfByte_value : ∀ b : Byte,
    bitsToNat (bitsOfByte b) = b.val := by
  decide!

theorem readBits_append (bs rest : List Bool) (p : Nat) :
    BitReader.readBits bs.length { bits := bs ++ rest, pos := p } =
      some (bitsToNat bs, { bits := rest, pos := p + bs.length }) := by
  induction bs generalizing p with
  | nil => rfl
  | cons b bs ih =>
    simp only [List.length_cons, BitReader.readBits, BitReader.readBit, List.cons_append]
    rw [ih]
    simp only [bitsToNat]
    congr 3
    omega

theorem readBits_byte (b : Byte) (rest : List Bool) (p : Nat) :
    BitReader.readBits 8 { bits := bitsOfByte b ++ rest, pos := p } =
      some (b.val, { bits := rest, pos := p + 8 }) := by
  have h := readBits_append (bitsOfByte b) rest p
  rw [bitsOfByte_value] at h
  exact h

theorem readBytes_unpack (bs : List Byte) (rest : List Bool) (p : Nat) :
    BitReader.readBytes bs.length { bits := unpackBits bs ++ rest, pos := p } =
      some (bs, { bits := rest, pos := p + 8 * bs.length }) := by
  induction bs generalizing p with
  | nil => rfl
  | cons b bs ih =>
    simp only [List.length_cons, BitReader.readBytes, unpackBits_cons, List.append_assoc]
    rw [readBits_byte]
    simp only [ih, toByte_val]
    congr 3
    omega

/-! ## The bytes `compressData` encodes -/

theorem adlerStep_foldl_lt (p : List Byte) (s : Nat × Nat) (h1 : s.1 < 65536)
    (h2 : s.2 < 65536) :
    (p.foldl adlerStep s).1 < 65536 ∧ (p.foldl adlerStep s).2 < 65536 := by
  induction p generalizing s with
  | nil => exact ⟨h1, h2⟩
  | cons x p ih =>
    simp only [List.foldl_cons]
    apply ih
    · simp only [adlerStep, adlerMod]; omega
    · simp only [adlerStep, adlerMod]; omega

theorem adlerChecksum_lt (p : List Byte) : adlerChecksum p < 4294967296 := by
  unfold adlerChecksum adlerUpdate
  have := adlerStep_foldl_lt p (1 % 65536, 1 / 65536) (by decide) (by decide)
  simp only
  omega

theorem compressData_eq (c : FlateCoder) (B : List Byte) :
    compressData c B =
      .ok (EncodeToString ([0x78, 0x9c] ++
        packBits (bodyBits c B ++ [true, true, false] ++ List.replicate 7 false) ++
        bigEndian32 (adlerChecksum B))) := by
  by_cases hB : B = []
  · subst hB
    rfl
  · have h1 : NewWriterLevel [] DefaultCompression =
        .ok { w := [], level := -1, wroteHeader := false,
              compressor := { level := -1, data := [] }, digest := 1 } := by rfl
    unfold compressData
    rw [h1]
    simp only [Writer.Write, hB, if_false, Writer.Close, Writer.writeHeader, FlateWriter.Close,
      bodyBits, adlerChecksum, bigEndian32, List.nil_append, Bool.not_false, if_true,
      Bool.not_true, Bool.false_eq_true, DefaultCompression]
    rfl

/-! ## Claims on `compressData` -/

/-- C8: for the empty byte sequence `compressData` returns no error and the
non-empty string `eJwDAAAAAAE=`, whatever the block coder; that string
base64-decodes to the zlib stream `78 9c 03 00 00 00 00 01`, which inflates
to the empty sequence; and the URL built from it, for either format and any
base path, carries it as the value of the format parameter. -/
theorem compressData_empty (c : FlateCoder) (b : GoString) :
    compressData c [] = .ok (str "eJwDAAAAAAE=") ∧
      str "eJwDAAAAAAE=" ≠ [] ∧
      DecodeString (str "eJwDAAAAAAE=") =
        some [0x78, 0x9c, 0x03, 0x00, 0x00, 0x00, 0x00, 0x01] ∧
      zlibInflate [0x78, 0x9c, 0x03, 0x00, 0x00, 0x00, 0x00, 0x01] = some [] ∧
      (∃ url v, buildViewerURL (str "eJwDAAAAAAE=") (str "rdjson") b = .ok url ∧
        queryParams url = some v ∧ v.lookup (str "rdjson") = [str "eJwDAAAAAAE="]) ∧
      (∃ url v, buildViewerURL (str "eJwDAAAAAAE=") (str "rdjsonl") b = .ok url ∧
        queryParams url = some v ∧ v.lookup (str "rdjsonl") = [str "eJwDAAAAAAE="]) := by
  have hc : compressData c [] = .ok (str "eJwDAAAAAAE=") := by
    rw [compressData_eq]
    simp only [bodyBits, if_true]
    decide
  refine ⟨hc, by decide, by decide, by decide!, ?_, ?_⟩
  · obtain ⟨url, h1, h2⟩ := queryParams_built (str "eJwDAAAAAAE=") (str "rdjson") b
      (by decide)
    refine ⟨url, _, h1, h2, ?_⟩
    by_cases hb : b = []
    · simp [hb, Values.lookup]
    · have hd : decide (str "base_path_url" = str "rdjson") = false := by decide
      simp [hb, Values.lookup, List.find?, hd]
  · obtain ⟨url, h1, h2⟩ := queryParams_built (str "eJwDAAAAAAE=") (str "rdjsonl") b
      (by decide)
    refine ⟨url, _, h1, h2, ?_⟩
    by_cases hb : b = []
    · simp [hb, Values.lookup]
    · have hd : decide (str "base_path_url" = str "rdjsonl") = false := by decide
      simp [hb, Values.lookup, List.find?, hd]

/-! ## Claims on `main` -/

theorem main_of_parsed (c : FlateCoder) (env : Env) (args : List GoString) (fl : Flags)
    (h : flagParse defaultFlags args = .parsed fl) : main c env args = mainBody c env fl := by
  simp only [main, h]

/-- The viewer URL of one of the two formats holds no newline. -/
theorem newline_not_mem_url (p f b url : GoString) (hf : isFormat f)
    (h : buildViewerURL p f b = .ok url) : ascii '\n' ∉ url := by
  obtain ⟨h1, _, _⟩ := isFormat_escape20 f hf
  have h4 : escape20 (str "base_path_url") = str "base_path_url" := by decide
  rw [buildViewerURL_formats p f b hf] at h
  simp only [Except.ok.injEq] at h
  rw [← h, List.mem_append, List.mem_cons]
  rintro (hm | hm | hm)
  · revert hm; decide
  · revert hm; decide
  · split_ifs at hm
    · have hb := query_bytes_one f p
      rw [h1] at hb
      exact (isQueryByte_facts _ (hb _ hm)).2.2.2.2.1 rfl
    · have hb := query_bytes_two (str "base_path_url") b f p
      rw [h1, h4] at hb
      exact (isQueryByte_facts _ (hb _ hm)).2.2.2.2.1 rfl

theorem isFormat_iff (f : GoString) :
    isFormat f ↔ ¬ (f ≠ str "rdjson" ∧ f ≠ str "rdjsonl") := by
  unfold isFormat
  constructor
  · rintro (h | h) ⟨h1, h2⟩
    · exact h1 h
    · exact h2 h
  · intro h
    by_contra hc
    exact h (not_or.mp hc)

theorem mainBody_valid (c : FlateCoder) (env : Env) (fl : Flags) (B : List Byte)
    (s url : GoString) (hfmt : isFormat fl.format) (hin : inputOf env fl = .ok B)
    (hs : compressData c B = .ok s)
    (hu : buildViewerURL s fl.format fl.baseHTMLURL = .ok url) :
    mainBody c env fl =
      { exitCode := 0, stdout := url ++ str "\n", stderr := [],
        reads := [if fl.inputFile ≠ [] then Read.file fl.inputFile else Read.stdin] } := by
  unfold inputOf at hin
  unfold mainBody
  rw [if_neg ((isFormat_iff _).mp hfmt)]
  simp only [hin, hs, hu]

theorem mainBody_read_error (c : FlateCoder) (env : Env) (fl : Flags) (e : GoString)
    (hfmt : isFormat fl.format) (hin : inputOf env fl = .error e) :
    mainBody c env fl =
      { exitCode := 1, stdout := [],
        stderr := str "Error reading input: " ++ e ++ str "\n",
        reads := [if fl.inputFile ≠ [] then Read.file fl.inputFile else Read.stdin] } := by
  unfold inputOf at hin
  unfold mainBody
  rw [if_neg ((isFormat_iff _).mp hfmt)]
  simp only [hin]

theorem mainBody_invalid (c : FlateCoder) (env : Env) (fl : Flags)
    (hf : ¬ isFormat fl.format) :
    mainBody c env fl =
      { exitCode := 1, stdout := [],
        stderr := str "Error: format must be either \x27rdjson\x27 or \x27rdjsonl\x27\n",
        reads := [] } := by
  unfold mainBody
  have hf' : fl.format ≠ str "rdjson" ∧ fl.format ≠ str "rdjsonl" := by
    unfold isFormat at hf
    exact not_or.mp hf
  rw [if_pos hf']
  rfl

/-- C6: when the flags parse and the `-format` value is neither `rdjson` nor
`rdjsonl`, then for every `-file` value, `-base-url` value and input the
run exits with code 1, writes the format error to the error stream,
writes nothing to the output stream and reads no input. -/
theorem main_invalid_format (c : FlateCoder) (env : Env) (args : List GoString) (fl : Flags)
    (h : flagParse defaultFlags args = .parsed fl) (hf : ¬ isFormat fl.format) :
    main c env args =
      { exitCode := 1, stdout := [],
        stderr := str "Error: format must be either \x27rdjson\x27 or \x27rdjsonl\x27\n",
        reads := [] } := by
  rw [main_of_parsed c env args fl h]
  exact mainBody_invalid c env fl hf

theorem main_invalid_format_witness :
    flagParse defaultFlags [str "-format=foo", str "-file", str "report.json",
        str "-base-url=https://example.com"] =
        .parsed { inputFile := str "report.json", format := str "foo",
                  baseHTMLURL := str "https://example.com" } ∧
      ¬ isFormat (str "foo") ∧
      main helloCoder helloEnv [str "-format=foo", str "-file", str "report.json",
          str "-base-url=https://example.com"] =
        { exitCode := 1, stdout := [],
          stderr := str "Error: format must be either \x27rdjson\x27 or \x27rdjsonl\x27\n",
          reads := [] } :=
  ⟨by decide, by decide,
    main_invalid_format helloCoder helloEnv _
      { inputFile := str "report.json", format := str "foo",
        baseHTMLURL := str "https://example.com" } (by decide) (by decide)⟩

/-- C7 (as stated, refuted): the run with the single argument `-x`, a flag
that is not defined, writes nothing to the output stream and exits with
code 2, which is neither an empty output with exit code 1 nor a printed URL
with exit code 0. -/
theorem main_undefined_flag_counterexample :
    (main helloCoder helloEnv [str "-x"]).stdout = [] ∧
      (main helloCoder helloEnv [str "-x"]).exitCode = 2 ∧
      ¬ (((main helloCoder helloEnv [str "-x"]).stdout = [] ∧
            (main helloCoder helloEnv [str "-x"]).exitCode = 1) ∨
          ((main helloCoder helloEnv [str "-x"]).exitCode = 0 ∧
            ∃ url, (main helloCoder helloEnv [str "-x"]).stdout = url ++ str "\n" ∧
              ascii '\n' ∉ url)) := by
  have h2 : (main helloCoder helloEnv [str "-x"]).exitCode = 2 := by decide
  refine ⟨by decide, h2, ?_⟩
  rw [h2]
  rintro (⟨_, h⟩ | ⟨h, _⟩) <;> exact absurd h (by decide)

/-- C7 (amended): for every run whose command line the flag parser accepts,
the output stream is either empty with exit code 1 (invalid format or input
read failure) or, with exit code 0, exactly the viewer URL of the
compressed input followed by one newline; the URL holds no newline,
whatever the base-url value, so a successful run prints exactly one line. -/
theorem main_all_or_nothing (c : FlateCoder) (env : Env) (args : List GoString) (fl : Flags)
    (h : flagParse defaultFlags args = .parsed fl) :
    ((main c env args).stdout = [] ∧ (main c env args).exitCode = 1) ∨
      ((main c env args).exitCode = 0 ∧
        ∃ url B s, (main c env args).stdout = url ++ str "\n" ∧ ascii '\n' ∉ url ∧
          inputOf env fl = .ok B ∧ compressData c B = .ok s ∧
          buildViewerURL s fl.format fl.baseHTMLURL = .ok url) := by
  rw [main_of_parsed c env args fl h]
  by_cases hfmt : isFormat fl.format
  · cases hin : inputOf env fl with
    | error e =>
      rw [mainBody_read_error c env fl e hfmt hin]
      exact Or.inl ⟨rfl, rfl⟩
    | ok B =>
      obtain ⟨url, hu⟩ : ∃ url, buildViewerURL
          (EncodeToString ([0x78, 0x9c] ++
            packBits (bodyBits c B ++ [true, true, false] ++ List.replicate 7 false) ++
            bigEndian32 (adlerChecksum B))) fl.format fl.baseHTMLURL = .ok url :=
        ⟨_, buildViewerURL_formats _ _ _ hfmt⟩
      rw [mainBody_valid c env fl B _ url hfmt hin (compressData_eq c B) hu]
      exact Or.inr ⟨rfl, url, B, _, rfl, newline_not_mem_url _ _ _ _ hfmt hu, rfl,
        compressData_eq c B, hu⟩
  · rw [mainBody_invalid c env fl hfmt]
    exact Or.inl ⟨rfl, rfl⟩

theorem main_all_or_nothing_witness :
    flagParse defaultFlags [str "-base-url", str "a\nb"] =
        .parsed { inputFile := [], format := str "rdjson", baseHTMLURL := str "a\nb" } ∧
      (((main helloCoder helloEnv [str "-base-url", str "a\nb"]).stdout = [] ∧
          (main helloCoder helloEnv [str "-base-url", str "a\nb"]).exitCode = 1) ∨
        ((main helloCoder helloEnv [str "-base-url", str "a\nb"]).exitCode = 0 ∧
          ∃ url B s, (main helloCoder helloEnv [str "-base-url", str "a\nb"]).stdout =
              url ++ str "\n" ∧ ascii '\n' ∉ url ∧
            inputOf helloEnv
              { inputFile := [], format := str "rdjson", baseHTMLURL := str "a\nb" } = .ok B ∧
            compressData helloCoder B = .ok s ∧
            buildViewerURL s (str "rdjson") (str "a\nb") = .ok url)) :=
  ⟨by decide, main_all_or_nothing helloCoder helloEnv _
    { inputFile := [], format := str "rdjson", baseHTMLURL := str "a\nb" } (by decide)⟩

/-- The output depends on the input bytes, not on where they came from: two
runs whose flags parse, with the same format, the same base path and the
same input bytes `B`, each read from a file or from the standard input,
end with the same output stream, error stream and exit code. The compressor
is the same function in both runs. -/
theorem main_input_source_independent (c : FlateCoder) (env1 env2 : Env)
    (args1 args2 : List GoString)
    (fl1 fl2 : Flags) (B : List Byte)
    (h1 : flagParse defaultFlags args1 = .parsed fl1)
    (h2 : flagParse defaultFlags args2 = .parsed fl2)
    (hf : fl1.format = fl2.format) (hb : fl1.baseHTMLURL = fl2.baseHTMLURL)
    (hin1 : inputOf env1 fl1 = .ok B) (hin2 : inputOf env2 fl2 = .ok B) :
    (main c env1 args1).stdout = (main c env2 args2).stdout ∧
      (main c env1 args1).exitCode = (main c env2 args2).exitCode ∧
      (main c env1 args1).stderr = (main c env2 args2).stderr ∧
      ∀ s, compressData c B = .ok s → isFormat fl1.format →
        ∃ url, buildViewerURL s fl1.format fl1.baseHTMLURL = .ok url ∧
          (main c env1 args1).stdout = url ++ str "\n" ∧
          (main c env2 args2).stdout = url ++ str "\n" := by
  rw [main_of_parsed c env1 args1 fl1 h1, main_of_parsed c env2 args2 fl2 h2]
  by_cases hfmt : isFormat fl1.format
  · have hfmt2 : isFormat fl2.format := hf ▸ hfmt
    obtain ⟨url, hu⟩ : ∃ url, buildViewerURL
        (EncodeToString ([0x78, 0x9c] ++
          packBits (bodyBits c B ++ [true, true, false] ++ List.replicate 7 false) ++
          bigEndian32 (adlerChecksum B))) fl1.format fl1.baseHTMLURL = .ok url :=
      ⟨_, buildViewerURL_formats _ _ _ hfmt⟩
    have hu2 := hu
    rw [hf, hb] at hu2
    rw [mainBody_valid c env1 fl1 B _ url hfmt hin1 (compressData_eq c B) hu,
      mainBody_valid c env2 fl2 B _ url hfmt2 hin2 (compressData_eq c B) hu2]
    refine ⟨rfl, rfl, rfl, ?_⟩
    intro s hs _
    rw [compressData_eq] at hs
    simp only [Except.ok.injEq] at hs
    rw [← hs]
    exact ⟨url, hu, rfl, rfl⟩
  · have hfmt2 : ¬ isFormat fl2.format := hf ▸ hfmt
    rw [mainBody_invalid c env1 fl1 hfmt, mainBody_invalid c env2 fl2 hfmt2]
    exact ⟨rfl, rfl, rfl, fun s _ hfm => absurd hfm hfmt⟩

end RdjsonViewer
